import Mathlib

/-!
# Verification of the PoCL Level Zero queue/scheduling subsystem

Shallow embedding of `lib/CL/devices/level0/level0-driver.cc`:
the event pool (`Level0EventPool`, `Level0Device::getNewEvent`), the queue
worker's command-list construction (`Level0Queue::allocNextFreeEvent`,
`read`/`write`/`copy`, `syncUseMemHostPtr`, `syncMemHostPtrs`,
`makeMemResident`, `closeCmdList`, `runNDRangeKernel`, `appendEventToList`),
the execution paths (`execCommand`, `execCommandBatch`, `execCommandBuffer`,
`createCommandBuffer`), the work queue (`Level0QueueGroup::getWorkOrWait`,
`pushWork`, `pushCommandBatch`, `Level0Queue::runThread`) and the device
dispatch (`Level0Device::pushCommand`, `Level0Device::pushCommandBatch`).

Native handles (`ze_event_handle_t`) are modelled as natural numbers;
pointers as natural numbers; the opaque Level Zero API calls
(`zeCommandListAppend*`, `zeCommandQueueExecuteCommandLists`,
`zeCommandQueueSynchronize`) are modelled by recording the corresponding
entry in the built command list or in an action trace.
-/

namespace PoclLevel0

/-! ## Event pool (`Level0EventPool`) -/

/-- One native event pool: `AvailableEvents` (the handles created by
`zeEventCreate` at pool construction) and `LastIdx`, the index of the next
handle to hand out. Mirrors class `Level0EventPool`. -/
structure Level0EventPool where
  events : List Nat
  lastIdx : Nat
deriving DecidableEq, Repr

/-- Modelled from the spec: `isEmpty` is the header-defined accessor (the
driver header is absent from the sources); per the spec an empty pool is one
with no available handle left, which by `getEvent` below means
`LastIdx >= AvailableEvents.size()`. -/
def Level0EventPool.isEmpty (p : Level0EventPool) : Bool :=
  p.events.length ≤ p.lastIdx

/-- `Level0EventPool::getEvent`: if `LastIdx >= AvailableEvents.size()`
return `nullptr` (here `none`), else return `AvailableEvents[LastIdx++]`. -/
def Level0EventPool.getEvent (p : Level0EventPool) :
    Option Nat × Level0EventPool :=
  if h : p.lastIdx < p.events.length then
    (some (p.events.get ⟨p.lastIdx, h⟩), { p with lastIdx := p.lastIdx + 1 })
  else
    (none, p)

/-- A freshly constructed pool of `size` events whose native handles are the
`size` numbers starting at `base` (each `zeEventCreate` call mints a handle
distinct from every handle minted before; `base` is the device's mint
counter). -/
def mkPool (base size : Nat) : Level0EventPool :=
  { events := List.range' base size, lastIdx := 0 }

/-- The device state relevant to `Level0Device::getNewEvent`:
`EventPools` (front = most recently allocated pool), the fixed pool batch
size `EventPoolSize`, and `nextHandle`, the model's counter from which
`zeEventCreate` mints fresh native handles. -/
structure Level0Device where
  eventPools : List Level0EventPool
  eventPoolSize : Nat
  nextHandle : Nat
deriving DecidableEq, Repr

/-- `EventPools.front().isEmpty()`. On an empty pool list the C++ would be
undefined; the device constructor guarantees at least one pool, and we let
the empty case count as exhausted so that a pool is grown. -/
def headIsEmpty : List Level0EventPool → Bool
  | [] => true
  | p :: _ => p.isEmpty

/-- The handles the device can still hand out without reuse: the unconsumed
entries of the front pool (only the front pool is ever read by
`getNewEvent`) and every handle the mint counter has not reached yet. -/
def Level0Device.canMint (d : Level0Device) (h : Nat) : Prop :=
  (∃ p, d.eventPools.head? = some p ∧ h ∈ p.events.drop p.lastIdx) ∨
    d.nextHandle ≤ h

/-- `Level0Device::getNewEvent`: under `EventPoolLock`, if the front pool is
exhausted, `emplace_front` a new pool of `EventPoolSize` events, then return
`EventPools.front().getEvent()`. -/
def Level0Device.getNewEvent (d : Level0Device) : Option Nat × Level0Device :=
  let d1 :=
    if headIsEmpty d.eventPools then
      { d with
        eventPools := mkPool d.nextHandle d.eventPoolSize :: d.eventPools,
        nextHandle := d.nextHandle + d.eventPoolSize }
    else d
  match d1.eventPools with
  | [] => (none, d1)
  | p :: rest =>
    let r := p.getEvent
    (r.1, { d1 with eventPools := r.2 :: rest })

/-- Perform `k` successive `getNewEvent` calls, returning the handles in
call order together with the final device state. -/
def acquireN (d : Level0Device) : Nat → List (Option Nat) × Level0Device
  | 0 => ([], d)
  | k + 1 =>
    let r := d.getNewEvent
    let rest := acquireN r.2 k
    (r.1 :: rest.1, rest.2)

/-- A device whose front pool is freshly constructed with batch size `n`
(handles `0..n-1`) and whose mint counter stands just past them. -/
def freshDev (n : Nat) : Level0Device :=
  { eventPools := [mkPool 0 n], eventPoolSize := n, nextHandle := n }

/-- The fresh-pool device after `j` of its `n` handles have been handed
out. -/
def midDev (n j : Nat) : Level0Device :=
  { eventPools := [{ events := List.range' 0 n, lastIdx := j }],
    eventPoolSize := n, nextHandle := n }

/-! ## The native command list being built

Each `zeCommandList*` call made while building a list is recorded as one
entry.  `signal` is the event handle passed as the signal argument, `waits`
the wait-event array (`numWaitEvents`/`phWaitEvents`). -/

inductive ListEntry where
  /-- `zeCommandListAppendMemoryCopy(CmdListH, dst, src, size, signal,
  n, waits)` -/
  | memCopy (dst src size : Nat) (signal : Option Nat) (waits : List Nat)
  /-- `zeCommandListAppendLaunchKernel(CmdListH, kernel, wgs, signal, n,
  waits)` -/
  | launchKernel (kernel : Nat) (wgs : Nat × Nat × Nat)
      (signal : Option Nat) (waits : List Nat)
  /-- `zeCommandListAppendBarrier(CmdListH, signal, n, waits)` -/
  | barrier (signal : Option Nat) (waits : List Nat)
  /-- `zeCommandListAppendEventReset(CmdListH, e)` -/
  | eventReset (e : Nat)
  /-- `zeCommandListClose(CmdListH)` -/
  | closeList
deriving DecidableEq, Repr

/-- The entry with its synchronization handles erased: what operation was
appended, independently of the event chaining. -/
inductive OpPayload where
  | memCopy (dst src size : Nat)
  | launchKernel (kernel : Nat) (wgs : Nat × Nat × Nat)
  | barrier
  | eventReset (e : Nat)
  | closeList
deriving DecidableEq, Repr

def ListEntry.payload : ListEntry → OpPayload
  | .memCopy d s n _ _ => .memCopy d s n
  | .launchKernel k w _ _ => .launchKernel k w
  | .barrier _ _ => .barrier
  | .eventReset e => .eventReset e
  | .closeList => .closeList

/-- The (signal, waits) pair of an appended native *operation* — the
entries built through `allocNextFreeEvent` chaining (copies and kernel
launches); the close-phase barrier, resets and the close itself are not
chained operations. -/
def ListEntry.chainInfo : ListEntry → Option (Option Nat × List Nat)
  | .memCopy _ _ _ sig w => some (sig, w)
  | .launchKernel _ _ sig w => some (sig, w)
  | _ => none

/-- A `cl_mem` buffer as the queue worker sees it: the device allocation
(`device_ptrs[global_mem_id].mem_ptr`), the host pointer (`mem_host_ptr`),
whether `CL_MEM_USE_HOST_PTR`, `CL_MEM_READ_ONLY` and
`CL_MEM_HOST_NO_ACCESS` are among its flags, and the buffer size. -/
structure MemObj where
  memPtr : Nat
  memHostPtr : Nat
  useHostPtr : Bool
  readOnly : Bool
  hostNoAccess : Bool
  size : Nat
deriving DecidableEq, Repr

/-- The command kinds whose queue-worker build paths are embedded
(`_cl_command_node::type` with the kind-specific payload of
`_cl_command_t`).  `commandBufferKHR` stands for
`CL_COMMAND_COMMAND_BUFFER_KHR`, which `appendEventToList` never handles
(its batches are routed to `execCommandBuffer` by `runThread`). -/
inductive CommandType where
  | readBuffer (dstHostPtr : Nat) (src : MemObj) (offset size : Nat)
  | writeBuffer (srcHostPtr : Nat) (dst : MemObj) (offset size : Nat)
  | copyBuffer (dst src : MemObj) (dstOffset srcOffset size : Nat)
  | ndrangeKernel (kernel : Nat) (numGroups : Nat × Nat × Nat)
      (accessedPointers : List (Nat × Nat)) (migInfos : List MemObj)
  | commandBufferKHR (bufId : Nat)
deriving DecidableEq, Repr

/-- One `_cl_command_node` together with the `cl_event` (Result Handle)
that tracks it; the event is identified by a number. -/
structure Node where
  eventId : Nat
  cmd : CommandType
deriving DecidableEq, Repr

/-- The mutable state of one `Level0Queue` during list construction:
`CurrentEventH`, `PreviousEventH`, the per-queue recycled handles
(`AvailableDeviceEvents`), the handles awaiting reset
(`DeviceEventsToReset`), the `UseMemHostPtrsToSync` map (keyed by the
(host pointer, device pointer) pair as in the `std::map`, kept sorted),
the `MemPtrsToMakeResident` map, the command list under construction, and
the device (for `getNewEvent`).  `aborted` models `POCL_ABORT` paths. -/
structure WorkerState where
  dev : Level0Device
  currentEventH : Option Nat
  previousEventH : Option Nat
  availableDeviceEvents : List Nat
  deviceEventsToReset : List Nat
  useMemHostPtrsToSync : List ((Nat × Nat) × Nat)
  memPtrsToMakeResident : List (Nat × Nat)
  cmdList : List ListEntry
  aborted : Bool
deriving DecidableEq, Repr

/-- `Level0Queue::allocNextFreeEvent`: `PreviousEventH = CurrentEventH`;
take the next handle from `AvailableDeviceEvents`, falling back to
`Device->getNewEvent()`; push the new `CurrentEventH` onto
`DeviceEventsToReset`.  (When `getNewEvent` cannot return a handle — only
possible for a zero-size pool, which well-formedness excludes — nothing is
pushed.) -/
def allocNextFreeEvent (s : WorkerState) : WorkerState :=
  match s.availableDeviceEvents with
  | [] =>
    let r := s.dev.getNewEvent
    { s with
      dev := r.2
      previousEventH := s.currentEventH
      currentEventH := r.1
      deviceEventsToReset := s.deviceEventsToReset ++ r.1.toList }
  | h :: t =>
    { s with
      previousEventH := s.currentEventH
      currentEventH := some h
      availableDeviceEvents := t
      deviceEventsToReset := s.deviceEventsToReset ++ [h] }

/-- The idiom every append site uses: `allocNextFreeEvent();
zeCommandListAppend...(..., CurrentEventH, PreviousEventH ? 1 : 0,
PreviousEventH ? &PreviousEventH : nullptr)`. `mk` builds the entry from
the signal handle and the wait array. -/
def appendChained (mk : Option Nat → List Nat → ListEntry)
    (s : WorkerState) : WorkerState :=
  let s1 := allocNextFreeEvent s
  { s1 with
    cmdList := s1.cmdList ++ [mk s1.currentEventH s1.previousEventH.toList] }

/-- `Level0Queue::read`: if `DevPtr + Offset == HostPtr` the copy is
skipped, else one `zeCommandListAppendMemoryCopy(CmdListH, HostPtr,
DevPtr + Offset, Size, ...)` is appended with chained events. -/
def Level0Queue.read (hostPtr srcMemPtr offset size : Nat)
    (s : WorkerState) : WorkerState :=
  if srcMemPtr + offset = hostPtr then s
  else appendChained (.memCopy hostPtr (srcMemPtr + offset) size) s

/-- `Level0Queue::write`: if `DevPtr + Offset == HostPtr` the copy is
skipped, else one `zeCommandListAppendMemoryCopy(CmdListH, DevPtr + Offset,
HostPtr, Size, ...)` is appended with chained events. -/
def Level0Queue.write (hostPtr dstMemPtr offset size : Nat)
    (s : WorkerState) : WorkerState :=
  if dstMemPtr + offset = hostPtr then s
  else appendChained (.memCopy (dstMemPtr + offset) hostPtr size) s

/-- `Level0Queue::copy`: always appends one
`zeCommandListAppendMemoryCopy(CmdListH, DstPtr + DstOffset,
SrcPtr + SrcOffset, Size, ...)` with chained events. -/
def Level0Queue.copy (dstMemPtr srcMemPtr dstOffset srcOffset size : Nat)
    (s : WorkerState) : WorkerState :=
  appendChained (.memCopy (dstMemPtr + dstOffset) (srcMemPtr + srcOffset) size) s

/-- Lexicographic order on the `(host ptr, device ptr)` keys of the
`UseMemHostPtrsToSync` `std::map`. -/
def keyLt (a b : Nat × Nat) : Bool :=
  a.1 < b.1 || (a.1 = b.1 && a.2 < b.2)

/-- `std::map::emplace`: insert `(k, v)` keeping the entries sorted by key;
an existing key is left untouched. -/
def mapEmplace (k : Nat × Nat) (v : Nat) :
    List ((Nat × Nat) × Nat) → List ((Nat × Nat) × Nat)
  | [] => [(k, v)]
  | (k1, v1) :: t =>
    if keyLt k k1 then (k, v) :: (k1, v1) :: t
    else if k = k1 then (k1, v1) :: t
    else (k1, v1) :: mapEmplace k v t

/-- `std::map::operator[] =`: insert or overwrite, keeping entries sorted
by key (used for `MemPtrsToMakeResident[Ptr] = Size`). -/
def mapAssign (k v : Nat) :
    List (Nat × Nat) → List (Nat × Nat)
  | [] => [(k, v)]
  | (k1, v1) :: t =>
    if k < k1 then (k, v) :: (k1, v1) :: t
    else if k = k1 then (k, v) :: t
    else (k1, v1) :: mapAssign k v t

/-- `Level0Queue::syncUseMemHostPtr` (buffer variant): nothing to do unless
the buffer has `CL_MEM_USE_HOST_PTR`; if the memory is host visible
(`MemHostPtr == DevPtr`) skip; otherwise record
`(MemHostPtr + Offset, DevPtr + Offset) -> Size` in
`UseMemHostPtrsToSync`. -/
def syncUseMemHostPtr (mem : MemObj) (offset size : Nat)
    (s : WorkerState) : WorkerState :=
  if !mem.useHostPtr then s
  else if mem.memHostPtr = mem.memPtr then s
  else
    { s with
      useMemHostPtrsToSync :=
        mapEmplace (mem.memHostPtr + offset, mem.memPtr + offset) size
          s.useMemHostPtrsToSync }

/-- The `LL_FOREACH` loop over `Cmd->migr_infos` in `appendEventToList`'s
`CL_COMMAND_NDRANGE_KERNEL` case: for every migrated buffer that is
neither `CL_MEM_READ_ONLY` nor `CL_MEM_HOST_NO_ACCESS`, record a
host-visibility sync of the whole buffer (`syncUseMemHostPtr(MemId, Buf,
0, Buf->size)`).  The loop runs even when the launch itself was a
zero-work-group no-op. -/
def syncMigratedBuffers (migInfos : List MemObj) (s : WorkerState) :
    WorkerState :=
  migInfos.foldl
    (fun st m =>
      if m.readOnly then st
      else if m.hostNoAccess then st
      else syncUseMemHostPtr m 0 m.size st) s

/-- `Level0Queue::runNDRangeKernel`, reduced to its effect on the command
list and the worker bookkeeping: a launch whose total work-group count
(`num_groups[0] * num_groups[1] * num_groups[2]`) is zero returns before
touching anything; otherwise the kernel's accessed pointers are added to
`MemPtrsToMakeResident` and one `zeCommandListAppendLaunchKernel` is
appended with chained events.  (Kernel/module selection, argument setup and
group-size programming are native-API calls that leave the list, event and
residency bookkeeping untouched and are not modelled; the product is taken
over naturals — its `uint32` wrap-around is reachable only for launches
of at least 2^32 work-groups.) -/
def runNDRangeKernel (kernel : Nat) (numGroups : Nat × Nat × Nat)
    (accessedPointers : List (Nat × Nat)) (s : WorkerState) : WorkerState :=
  if numGroups.1 * numGroups.2.1 * numGroups.2.2 = 0 then s
  else
    let s1 :=
      { s with
        memPtrsToMakeResident :=
          accessedPointers.foldl (fun m e => mapAssign e.1 e.2 m)
            s.memPtrsToMakeResident }
    appendChained (.launchKernel kernel numGroups) s1

/-- `Level0Queue::appendEventToList`, for the embedded command kinds.
`CL_COMMAND_READ_BUFFER` calls `read`; `CL_COMMAND_WRITE_BUFFER` calls
`write` then `syncUseMemHostPtr`; `CL_COMMAND_COPY_BUFFER` calls `copy`
then `syncUseMemHostPtr` on the destination; `CL_COMMAND_NDRANGE_KERNEL`
calls `run`, which for a program without builtin kernels is
`runNDRangeKernel`, followed by the migrated-buffer host-sync loop
(`syncMigratedBuffers`).  The `default:` case of the switch is
`POCL_ABORT_UNIMPLEMENTED`, modelled by the `aborted` flag (reached for a
command-buffer node, which `runThread` never sends here). -/
def appendEventToList (c : CommandType) (s : WorkerState) : WorkerState :=
  match c with
  | .readBuffer dstHostPtr src offset size =>
    Level0Queue.read dstHostPtr src.memPtr offset size s
  | .writeBuffer srcHostPtr dst offset size =>
    syncUseMemHostPtr dst offset size
      (Level0Queue.write srcHostPtr dst.memPtr offset size s)
  | .copyBuffer dst src dstOffset srcOffset size =>
    syncUseMemHostPtr dst dstOffset size
      (Level0Queue.copy dst.memPtr src.memPtr dstOffset srcOffset size s)
  | .ndrangeKernel kernel numGroups accessed migInfos =>
    syncMigratedBuffers migInfos
      (runNDRangeKernel kernel numGroups accessed s)
  | .commandBufferKHR _ => { s with aborted := true }

/-- `Level0Queue::makeMemResident`: issue
`zeContextMakeMemoryResident` for every recorded pointer (a context-level
native call, not a list entry) and clear `MemPtrsToMakeResident`. -/
def makeMemResident (s : WorkerState) : WorkerState :=
  { s with memPtrsToMakeResident := [] }

/-- `Level0Queue::syncMemHostPtrs`: for every entry of
`UseMemHostPtrsToSync` append one chained
`zeCommandListAppendMemoryCopy(CmdListH, MemHostPtr, DevPtr, Size, ...)`,
then clear the map. -/
def syncMemHostPtrs (s : WorkerState) : WorkerState :=
  let s1 := s.useMemHostPtrsToSync.foldl
    (fun st e => appendChained (.memCopy e.1.1 e.1.2 e.2) st) s
  { s1 with useMemHostPtrsToSync := [] }

/-- `Level0Queue::closeCmdList(EvtList)`: append a barrier waiting on
`CurrentEventH` (if any); drain `DeviceEventsToReset` in FIFO order,
appending a `zeCommandListAppendEventReset` per handle and pushing the
handle to `EvtList` when one was supplied (command-buffer recording,
`toCmdBuf = true`) or back to `AvailableDeviceEvents` otherwise; finally
`zeCommandListClose`.  Returns the handles routed to the command buffer. -/
def closeCmdList (toCmdBuf : Bool) (s : WorkerState) :
    WorkerState × List Nat :=
  let evts := s.deviceEventsToReset
  ({ s with
      cmdList := s.cmdList ++ [ListEntry.barrier none s.currentEventH.toList]
        ++ evts.map ListEntry.eventReset ++ [ListEntry.closeList]
      deviceEventsToReset := []
      availableDeviceEvents :=
        if toCmdBuf then s.availableDeviceEvents
        else s.availableDeviceEvents ++ evts },
    if toCmdBuf then evts else [])

/-- `Level0Queue::reset`: `zeCommandListReset` empties the list; clear
current/previous handles and both pending maps (`DeviceEventsToReset` is
asserted empty). -/
def Level0Queue.reset (s : WorkerState) : WorkerState :=
  { s with
    cmdList := []
    currentEventH := none
    previousEventH := none
    useMemHostPtrsToSync := []
    memPtrsToMakeResident := [] }

/-! ## Execution paths -/

/-- The externally observable actions of an execution path:
`zeCommandQueueExecuteCommandLists` with the submitted list,
`zeCommandQueueSynchronize`, and the Result Handle updates
(`pocl_update_event_submitted`, `pocl_update_event_running`,
`POCL_UPDATE_EVENT_COMPLETE`). -/
inductive Action where
  | submitList (l : List ListEntry)
  | synchronize
  | markSubmitted (eventId : Nat)
  | markRunning (eventId : Nat)
  | markComplete (eventId : Nat)
deriving DecidableEq, Repr

def Action.isSubmit : Action → Bool
  | .submitList _ => true
  | _ => false

def Action.isSynchronize : Action → Bool
  | .synchronize => true
  | _ => false

def Action.runningOf : Action → Option Nat
  | .markRunning e => some e
  | _ => none

def Action.completeOf : Action → Option Nat
  | .markComplete e => some e
  | _ => none

/-- `Level0Queue::execCommand`: append the node's operations, apply
residency, drain the host-sync map, close the list; submit it, mark the
node's Result Handle running, synchronize, mark it complete.  (The queue
workers of this driver run with a real `QueueH`; the immediate-command-list
mode compiled for NPU builds is not modelled.) -/
def execCommand (s : WorkerState) (n : Node) : WorkerState × List Action :=
  let s1 := appendEventToList n.cmd s
  let s2 := makeMemResident s1
  let s3 := syncMemHostPtrs s2
  let s4 := (closeCmdList false s3).1
  (s4,
    [Action.submitList s4.cmdList, Action.markRunning n.eventId,
      Action.synchronize, Action.markComplete n.eventId])

/-- `Level0Queue::execCommandBatch`: append every node's operations in the
batch's FIFO order, apply residency, drain the host-sync map, close the
list; submit it once; for every batch event in order mark it submitted and
running; synchronize once; mark every batch event complete in order. -/
def execCommandBatch (s : WorkerState) (batch : List Node) :
    WorkerState × List Action :=
  let s1 := batch.foldl (fun st n => appendEventToList n.cmd st) s
  let s2 := makeMemResident s1
  let s3 := syncMemHostPtrs s2
  let s4 := (closeCmdList false s3).1
  (s4,
    Action.submitList s4.cmdList ::
      (batch.flatMap fun n =>
        [Action.markSubmitted n.eventId, Action.markRunning n.eventId])
      ++ [Action.synchronize]
      ++ batch.map fun n => Action.markComplete n.eventId)

/-! ## Command buffers -/

/-- A recorded `cl_command_buffer_khr`: the fixed ordered sequence of
command nodes captured at record time (`CmdBuf->cmds`). -/
structure CmdBuffer where
  cmds : List Node
deriving DecidableEq, Repr

/-- `Level0CmdBufferData`, the per-(buffer × device) replay slot: the
pre-built native list, the sync handles the buffer owns, and the residency
list captured at record time. -/
structure CmdBufData where
  cmdList : List ListEntry
  events : List Nat
  memPtrsToMakeResident : List (Nat × Nat)
deriving DecidableEq, Repr

/-- `Level0Queue::createCommandBuffer`: save `CmdListH` and start a fresh
list; iterate the buffer's stored nodes in original order through
`appendEventToList`; drain the host-sync map; close the list routing every
used handle into the buffer's own event list; restore the worker's list;
stash the built list, the owned handles and the accumulated residency map
in a new `Level0CmdBufferData`; clear current/previous handles. -/
def createCommandBuffer (s : WorkerState) (buf : CmdBuffer) :
    WorkerState × CmdBufData :=
  let saved := s.cmdList
  let s1 := { s with cmdList := [] }
  let s2 := buf.cmds.foldl (fun st n => appendEventToList n.cmd st) s1
  let s3 := syncMemHostPtrs s2
  let r := closeCmdList true s3
  let s4 := r.1
  ({ s4 with
      cmdList := saved
      currentEventH := none
      previousEventH := none
      memPtrsToMakeResident := [] },
    { cmdList := s4.cmdList, events := r.2,
      memPtrsToMakeResident := s4.memPtrsToMakeResident })

/-- `Level0Queue::execCommandBuffer`: if the buffer's per-device slot is
still empty, record the native list now (lazy build) and cache it;
then, under the slot's lock, make the buffer's captured residency list
resident (the swap dance leaves the slot's residency map empty
afterwards), submit the *cached* list, mark the governing Result Handle
running, synchronize, and mark it complete.  The final `Bool` reports
whether this call performed the lazy build. -/
def execCommandBuffer (s : WorkerState) (buf : CmdBuffer)
    (slot : Option CmdBufData) (eventId : Nat) :
    WorkerState × CmdBufData × List Action × Bool :=
  match slot with
  | none =>
    let r := createCommandBuffer s buf
    (r.1, { r.2 with memPtrsToMakeResident := [] },
      [Action.submitList r.2.cmdList, Action.markRunning eventId,
        Action.synchronize, Action.markComplete eventId], true)
  | some d =>
    (s, { d with memPtrsToMakeResident := [] },
      [Action.submitList d.cmdList, Action.markRunning eventId,
        Action.synchronize, Action.markComplete eventId], false)

/-! ## Work queue, queue group and the run loop -/

/-- The `CL_COMMAND_*` codes the dispatch layer distinguishes
(`Level0Device::pushCommand` tests the node's `type` against the five
compute-class codes; everything else is copy-class). -/
inductive CmdKind where
  | ndrangeKernel
  | svmMemfill
  | memfillIntel
  | fillBuffer
  | fillImage
  | readBuffer
  | writeBuffer
  | copyBuffer
  | readImage
  | writeImage
  | copyImage
  | mapBuffer
  | unmapMemObject
  | barrier
  | marker
  | svmMemcpy
  | migrateMemObjects
  | commandBufferKHR
deriving DecidableEq, Repr

/-- A node as the dispatch layer sees it: its command code and its Result
Handle id. -/
structure NodeK where
  eventId : Nat
  kind : CmdKind
deriving DecidableEq, Repr

/-- One `Level0QueueGroup`: the shared single-command FIFO (`WorkQueue`),
the pre-batched-group FIFO (`BatchWorkQueue`), the shutdown flag
(`ThreadExitRequested`) and the `Available` flag set when the group was
initialized with at least one native queue. -/
structure QueueGroupState where
  workQueue : List NodeK
  batchWorkQueue : List (List NodeK)
  threadExitRequested : Bool
  available : Bool
deriving DecidableEq, Repr

/-- `Level0QueueGroup::pushWork`: append to the single-command FIFO. -/
def QueueGroupState.pushWork (g : QueueGroupState) (n : NodeK) :
    QueueGroupState :=
  { g with workQueue := g.workQueue ++ [n] }

/-- `Level0QueueGroup::pushCommandBatch`: append to the batch FIFO. -/
def QueueGroupState.pushCommandBatch (g : QueueGroupState)
    (b : List NodeK) : QueueGroupState :=
  { g with batchWorkQueue := g.batchWorkQueue ++ [b] }

/-- What one `getWorkOrWait` call hands to the worker. -/
inductive FetchOut where
  | node (n : NodeK)
  | batch (b : List NodeK)
  | noWork
deriving DecidableEq, Repr

/-- `Level0QueueGroup::getWorkOrWait`: read `ThreadExitRequested` into
`ShouldExit`; pop the front of `WorkQueue` if non-empty, else the front of
`BatchWorkQueue` if non-empty, returning the read `ShouldExit`; with both
FIFOs empty, return `ShouldExit` if it is set, else block on the condition
variable (`none` — in this single-worker model nothing else pushes, so the
wait never returns). -/
def getWorkOrWait (g : QueueGroupState) :
    Option (FetchOut × QueueGroupState × Bool) :=
  match g.workQueue with
  | n :: t =>
    some (.node n, { g with workQueue := t }, g.threadExitRequested)
  | [] =>
    match g.batchWorkQueue with
    | b :: t =>
      some (.batch b, { g with batchWorkQueue := t }, g.threadExitRequested)
    | [] =>
      if g.threadExitRequested then some (.noWork, g, true) else none

/-- What `runThread` executed, in order. -/
inductive WorkItem where
  | single (n : NodeK)
  | batch (b : List NodeK)
deriving DecidableEq, Repr

/-- The outcome of the run loop in this model: the loop terminated
(`ShouldExit` was true after an iteration), or the worker blocked forever
on the empty queue. -/
inductive LoopOutcome where
  | exited
  | blocked
deriving DecidableEq, Repr

/-- `Level0Queue::runThread`'s `do { getWorkOrWait; execute } while
(!ShouldExit)` loop, with the shutdown flag frozen at its current value
(the model has no concurrent `uninit`).  Returns the items executed, in
execution order, the final queue state, and whether the loop exited or
blocked.  The queue pops of `getWorkOrWait` are unfolded into the match so
that the recursion is visibly decreasing; `runThreadLoop_step` below proves
the loop equal to its `getWorkOrWait`-driven form. -/
def runThreadLoop : QueueGroupState →
    List WorkItem × QueueGroupState × LoopOutcome
  | ⟨n :: t, bq, ex, av⟩ =>
    if ex then
      ([.single n], ⟨t, bq, ex, av⟩, .exited)
    else
      let r := runThreadLoop ⟨t, bq, ex, av⟩
      (.single n :: r.1, r.2)
  | ⟨[], b :: bt, ex, av⟩ =>
    if ex then
      ([.batch b], ⟨[], bt, ex, av⟩, .exited)
    else
      let r := runThreadLoop ⟨[], bt, ex, av⟩
      (.batch b :: r.1, r.2)
  | ⟨[], [], ex, av⟩ =>
    if ex then ([], ⟨[], [], ex, av⟩, .exited)
    else ([], ⟨[], [], ex, av⟩, .blocked)
termination_by g => g.workQueue.length + g.batchWorkQueue.length

/-! ## Device façade dispatch -/

/-- The device-level dispatch state: the three queue groups and the
command-queue-batching capability (`supportsCmdQBatching`). -/
structure DispatchState where
  computeQueues : QueueGroupState
  copyQueues : QueueGroupState
  universalQueues : QueueGroupState
  supportsCmdQBatching : Bool
deriving DecidableEq, Repr

/-- The five compute-class command codes tested by
`Level0Device::pushCommand`. -/
def isComputeClass (k : CmdKind) : Bool :=
  match k with
  | .ndrangeKernel => true
  | .svmMemfill => true
  | .memfillIntel => true
  | .fillBuffer => true
  | .fillImage => true
  | _ => false

/-- `Level0Device::pushCommand`: a compute-class node goes to
`ComputeQueues` when that group is available, else to `UniversalQueues`;
every other node goes to `CopyQueues` when available, else to
`UniversalQueues`. -/
def Level0Device.pushCommand (d : DispatchState) (n : NodeK) :
    DispatchState :=
  if isComputeClass n.kind then
    if d.computeQueues.available then
      { d with computeQueues := d.computeQueues.pushWork n }
    else
      { d with universalQueues := d.universalQueues.pushWork n }
  else
    if d.copyQueues.available then
      { d with copyQueues := d.copyQueues.pushWork n }
    else
      { d with universalQueues := d.universalQueues.pushWork n }

/-- The outcome of `Level0Device::pushCommandBatch`: either the process
aborts (`POCL_ABORT_UNIMPLEMENTED`) or the dispatch state advances. -/
inductive PushOutcome where
  | aborted
  | ok (d : DispatchState)
deriving DecidableEq, Repr

/-- `Level0Device::pushCommandBatch`: if the device supports
command-queue batching, push the batch to `UniversalQueues`; otherwise
abort — that code path indicates a caller bug. -/
def Level0Device.pushCommandBatch (d : DispatchState) (b : List NodeK) :
    PushOutcome :=
  if d.supportsCmdQBatching then
    .ok { d with universalQueues := d.universalQueues.pushCommandBatch b }
  else
    .aborted

/-! ## Derived notions used by the statements -/

/-- The chained (signal, waits) pairs of the operations in a list. -/
def chainOf (l : List ListEntry) : List (Option Nat × List Nat) :=
  l.filterMap ListEntry.chainInfo

/-- `chainLinkedFrom prev ops` holds when, starting with `prev` as the
handle signalled by the operation appended just before `ops`, every
operation waits exactly on the signal handle of its predecessor (the first
waits on `prev`, or on nothing when `prev = none`). -/
def chainLinkedFrom (prev : Option Nat) :
    List (Option Nat × List Nat) → Bool
  | [] => true
  | (sig, waits) :: rest =>
    waits = prev.toList && chainLinkedFrom sig rest

/-- The signal handle of the last operation of the chain (`prev` when the
chain is empty). -/
def lastSigFrom (prev : Option Nat) :
    List (Option Nat × List Nat) → Option Nat
  | [] => prev
  | (sig, _) :: rest => lastSigFrom sig rest

/-- The operations a command node contributes to the list, with the
synchronization handles erased — computed from the node alone. -/
def opPayloads : CommandType → List OpPayload
  | .readBuffer dstHostPtr src offset size =>
    if src.memPtr + offset = dstHostPtr then []
    else [.memCopy dstHostPtr (src.memPtr + offset) size]
  | .writeBuffer srcHostPtr dst offset size =>
    if dst.memPtr + offset = srcHostPtr then []
    else [.memCopy (dst.memPtr + offset) srcHostPtr size]
  | .copyBuffer dst src dstOffset srcOffset size =>
    [.memCopy (dst.memPtr + dstOffset) (src.memPtr + srcOffset) size]
  | .ndrangeKernel k ng _ _ =>
    if ng.1 * ng.2.1 * ng.2.2 = 0 then [] else [.launchKernel k ng]
  | .commandBufferKHR _ => []

/-- Device well-formedness: a positive pool batch size, a duplicate-free
front pool, and every already-created handle below the mint counter. -/
structure DevWF (d : Level0Device) : Prop where
  sizePos : 0 < d.eventPoolSize
  frontNodup : ∀ p, d.eventPools.head? = some p → p.events.Nodup
  below : ∀ p ∈ d.eventPools, ∀ h ∈ p.events, h < d.nextHandle

/-- Worker well-formedness: the recycled handles are duplicate-free,
disjoint from the in-flight ones, and neither set can be handed out again
by the device. -/
structure WorkerWF (s : WorkerState) : Prop where
  dev : DevWF s.dev
  availNodup : s.availableDeviceEvents.Nodup
  resetNodup : s.deviceEventsToReset.Nodup
  disj : ∀ h ∈ s.availableDeviceEvents, h ∉ s.deviceEventsToReset
  availNotMint : ∀ h ∈ s.availableDeviceEvents, ¬ s.dev.canMint h
  resetNotMint : ∀ h ∈ s.deviceEventsToReset, ¬ s.dev.canMint h

/-- The list-construction invariant: the worker is well formed, the
operations recorded so far form a linear chain, `CurrentEventH` is the
signal handle of the last operation, and the signal handles are exactly
the `DeviceEventsToReset` entries, in order. -/
structure BuildInv (s : WorkerState) : Prop where
  wf : WorkerWF s
  linked : chainLinkedFrom none (chainOf s.cmdList) = true
  cur : s.currentEventH = lastSigFrom none (chainOf s.cmdList)
  sigs : (chainOf s.cmdList).map Prod.fst = s.deviceEventsToReset.map some

/-! ## The event pool hands out fresh handles -/

/-- `getNewEvent` when the front pool is exhausted (or absent): a fresh
pool is prepended and its first handle — the mint counter — is returned. -/
theorem getNewEvent_grow (d : Level0Device)
    (hE : headIsEmpty d.eventPools = true) (hs : 0 < d.eventPoolSize) :
    d.getNewEvent = (some d.nextHandle,
      { eventPools :=
          { events := List.range' d.nextHandle d.eventPoolSize,
            lastIdx := 1 } :: d.eventPools,
        eventPoolSize := d.eventPoolSize,
        nextHandle := d.nextHandle + d.eventPoolSize }) := by
  simp [Level0Device.getNewEvent, hE, mkPool, Level0EventPool.getEvent, hs]

/-- `getNewEvent` when the front pool still has an unconsumed handle: that
handle is returned and the pool's index advances. -/
theorem getNewEvent_front (d : Level0Device) (p : Level0EventPool)
    (rest : List Level0EventPool) (hpools : d.eventPools = p :: rest)
    (hidx : p.lastIdx < p.events.length) :
    d.getNewEvent = (some (p.events.get ⟨p.lastIdx, hidx⟩),
      { d with
          eventPools :=
            { events := p.events, lastIdx := p.lastIdx + 1 } :: rest }) := by
  have hne : headIsEmpty (p :: rest) = false := by
    simp [headIsEmpty, Level0EventPool.isEmpty]
    omega
  simp [Level0Device.getNewEvent, hne, hpools, Level0EventPool.getEvent, hidx]

theorem getNewEvent_fresh (d : Level0Device) (hwf : DevWF d) :
    ∃ h, (d.getNewEvent).1 = some h ∧ d.canMint h ∧
      DevWF (d.getNewEvent).2 ∧ ¬ (d.getNewEvent).2.canMint h ∧
      ∀ x, (d.getNewEvent).2.canMint x → d.canMint x := by
  by_cases hE : headIsEmpty d.eventPools = true
  · -- the front pool is exhausted (or absent): a new pool is grown
    rw [getNewEvent_grow d hE hwf.sizePos]
    have hdrop : (List.range' d.nextHandle d.eventPoolSize).drop 1 =
        List.range' (d.nextHandle + 1) (d.eventPoolSize - 1) := by
      obtain ⟨k, hk⟩ := Nat.exists_eq_succ_of_ne_zero hwf.sizePos.ne'
      rw [hk]
      simp [List.range'_succ]
    refine ⟨d.nextHandle, rfl, Or.inr le_rfl, ?_, ?_, ?_⟩
    · refine ⟨hwf.sizePos, ?_, ?_⟩
      · intro p hp
        simp at hp
        subst hp
        simpa using List.nodup_range' d.nextHandle d.eventPoolSize
      · intro p hp x hx
        simp at hp
        rcases hp with hp | hp
        · subst hp
          simp only at hx
          have := List.mem_range'.mp hx
          simp only
          omega
        · have := hwf.below p hp x hx
          simp only
          omega
    · rintro (⟨q, hq, hx⟩ | hcm)
      · simp at hq
        subst hq
        simp only [hdrop] at hx
        have := List.mem_range'.mp hx
        omega
      · simp at hcm
        have := hwf.sizePos
        omega
    · intro x hcm
      rcases hcm with ⟨q, hq, hx⟩ | hcm
      · simp at hq
        subst hq
        simp only [hdrop] at hx
        have := List.mem_range'.mp hx
        exact Or.inr (by omega)
      · simp at hcm
        exact Or.inr (by omega)
  · -- the front pool still has an unconsumed handle
    rcases hpools : d.eventPools with _ | ⟨p, rest⟩
    · rw [hpools] at hE
      simp [headIsEmpty] at hE
    have hpe : ¬ p.isEmpty = true := by
      rw [hpools] at hE
      simpa [headIsEmpty] using hE
    have hidx : p.lastIdx < p.events.length := by
      simp [Level0EventPool.isEmpty] at hpe
      omega
    have hnodup : p.events.Nodup := hwf.frontNodup p (by rw [hpools]; rfl)
    have hdropEq : p.events.drop p.lastIdx =
        p.events.get ⟨p.lastIdx, hidx⟩ :: p.events.drop (p.lastIdx + 1) := by
      simpa using (List.getElem_cons_drop p.events p.lastIdx hidx).symm
    have hmemp : p ∈ d.eventPools := by
      rw [hpools]
      exact List.mem_cons_self _ _
    have hbelow : p.events.get ⟨p.lastIdx, hidx⟩ < d.nextHandle :=
      hwf.below p hmemp _ (p.events.get_mem _ _)
    have hbelow2 : p.events[p.lastIdx] < d.nextHandle := hbelow
    rw [getNewEvent_front d p rest hpools hidx]
    refine ⟨p.events.get ⟨p.lastIdx, hidx⟩, rfl, ?_, ?_, ?_, ?_⟩
    · refine Or.inl ⟨p, by rw [hpools]; rfl, ?_⟩
      rw [hdropEq]
      exact List.mem_cons_self _ _
    · refine ⟨hwf.sizePos, ?_, ?_⟩
      · intro q hq
        simp at hq
        subst hq
        exact hnodup
      · intro q hq x hx
        simp at hq
        rcases hq with hq | hq
        · subst hq
          simp only at hx
          exact hwf.below p hmemp x hx
        · exact hwf.below q (by rw [hpools]; exact List.mem_cons_of_mem _ hq)
            x hx
    · rintro (⟨q, hq, hx⟩ | hcm)
      · simp at hq
        subst hq
        simp only at hx
        have hnd : (p.events.drop p.lastIdx).Nodup :=
          (List.drop_sublist _ _).nodup hnodup
        rw [hdropEq] at hnd
        exact (List.nodup_cons.mp hnd).1 hx
      · simp at hcm
        omega
    · intro x hcm
      rcases hcm with ⟨q, hq, hx⟩ | hcm
      · simp at hq
        subst hq
        simp only at hx
        refine Or.inl ⟨p, by rw [hpools]; rfl, ?_⟩
        rw [hdropEq]
        exact List.mem_cons_of_mem _ hx
      · simp at hcm
        exact Or.inr hcm

/-! ## Event pool growth (claim C4 machinery) -/

theorem acquireN_append (a b : Nat) :
    ∀ d : Level0Device, acquireN d (a + b) =
      ((acquireN d a).1 ++ (acquireN (acquireN d a).2 b).1,
        (acquireN (acquireN d a).2 b).2) := by
  induction a with
  | zero => intro d; simp [acquireN]
  | succ k ih =>
    intro d
    have hadd : k + 1 + b = (k + b) + 1 := by omega
    rw [hadd]
    simp [acquireN, ih]

theorem midDev_step (n j : Nat) (hj : j < n) :
    (midDev n j).getNewEvent = (some j, midDev n (j + 1)) := by
  have hidx : ({ events := List.range' 0 n, lastIdx := j } :
      Level0EventPool).lastIdx <
      ({ events := List.range' 0 n, lastIdx := j } :
        Level0EventPool).events.length := by
    simpa using hj
  rw [getNewEvent_front (midDev n j) _ [] rfl hidx]
  simp [midDev]

theorem acquireN_mid (n : Nat) :
    ∀ k j, j + k ≤ n → acquireN (midDev n j) k =
      ((List.range' j k).map some, midDev n (j + k)) := by
  intro k
  induction k with
  | zero => intro j _; simp [acquireN]
  | succ m ih =>
    intro j hjk
    have hj : j < n := by omega
    have hrec := ih (j + 1) (by omega)
    simp only [acquireN, midDev_step n j hj, hrec]
    rw [List.range'_succ]
    have : j + 1 + m = j + (m + 1) := by omega
    rw [this]
    simp

theorem midDev_grow (n : Nat) (hn : 0 < n) :
    (midDev n n).getNewEvent = (some n,
      { eventPools :=
          [{ events := List.range' n n, lastIdx := 1 },
            { events := List.range' 0 n, lastIdx := n }],
        eventPoolSize := n, nextHandle := n + n }) := by
  have hE : headIsEmpty (midDev n n).eventPools = true := by
    simp [midDev, headIsEmpty, Level0EventPool.isEmpty]
  have := getNewEvent_grow (midDev n n) hE (by simpa [midDev] using hn)
  simpa [midDev] using this

/-- **C4.** For every call to the Event Pool acquire operation
(`Level0Device::getNewEvent`), if the most recent (front) pool still has an
available handle that handle is returned and no pool is added; otherwise a
new fixed-size pool is allocated and prepended and a handle from it is
returned (the model is a total function, hence non-blocking); in
particular, for every batch size `N`, the `N + 1` acquires following a
fresh pool of size `N` all succeed, the first `N` come from the original
single pool, the `(N+1)`-th transparently grows a second pool, and all
returned handles are pairwise distinct. -/
theorem C4_eventPool_acquire (N : Nat) (hN : 0 < N) :
    (∀ (d : Level0Device) (p : Level0EventPool)
        (rest : List Level0EventPool), d.eventPools = p :: rest →
        p.lastIdx < p.events.length →
        (d.getNewEvent).1 = p.events.get? p.lastIdx ∧
        (d.getNewEvent).2.eventPools.length = d.eventPools.length) ∧
    (∀ d : Level0Device, 0 < d.eventPoolSize →
        headIsEmpty d.eventPools = true →
        (d.getNewEvent).1 = some d.nextHandle ∧
        ∃ q, (d.getNewEvent).2.eventPools = q :: d.eventPools ∧
          d.nextHandle ∈ q.events) ∧
    (acquireN (freshDev N) (N + 1)).1 = (List.range' 0 (N + 1)).map some ∧
    (acquireN (freshDev N) (N + 1)).1.Nodup ∧
    (acquireN (freshDev N) N).2.eventPools.length = 1 ∧
    (acquireN (freshDev N) (N + 1)).2.eventPools.length = 2 := by
  have hmid : acquireN (freshDev N) N =
      ((List.range' 0 N).map some, midDev N N) := by
    have : freshDev N = midDev N 0 := rfl
    rw [this]
    simpa using acquireN_mid N N 0 (by omega)
  have hgrow := midDev_grow N hN
  have hsplit := acquireN_append N 1 (freshDev N)
  have hone : acquireN (midDev N N) 1 =
      ([some N],
        { eventPools :=
            [{ events := List.range' N N, lastIdx := 1 },
              { events := List.range' 0 N, lastIdx := N }],
          eventPoolSize := N, nextHandle := N + N }) := by
    simp [acquireN, hgrow]
  have hfull : acquireN (freshDev N) (N + 1) =
      ((List.range' 0 N).map some ++ [some N],
        { eventPools :=
            [{ events := List.range' N N, lastIdx := 1 },
              { events := List.range' 0 N, lastIdx := N }],
          eventPoolSize := N, nextHandle := N + N }) := by
    rw [hsplit, hmid, hone]
  have hconcat : (List.range' 0 N).map some ++ [some N] =
      (List.range' 0 (N + 1)).map some := by
    rw [List.range'_1_concat]
    simp
  refine ⟨?_, ?_, ?_, ?_, ?_, ?_⟩
  · intro d p rest hpools hidx
    rw [getNewEvent_front d p rest hpools hidx]
    refine ⟨(List.get?_eq_get hidx).symm, ?_⟩
    rw [hpools]
    simp
  · intro d hs hE
    rw [getNewEvent_grow d hE hs]
    refine ⟨rfl,
      (⟨List.range' d.nextHandle d.eventPoolSize, 1⟩ : Level0EventPool),
      rfl, ?_⟩
    simp [List.mem_range']
    omega
  · simp [hfull, hconcat]
  · have : (acquireN (freshDev N) (N + 1)).1 =
        (List.range' 0 (N + 1)).map some := by simp [hfull, hconcat]
    rw [this]
    exact ((List.nodup_range' _ _).map (Option.some_injective Nat))
  · rw [hmid]
    rfl
  · rw [hfull]
    rfl

/-- Witness for C4 at batch size `N = 2`. -/
theorem C4_eventPool_acquire_witness :
    0 < 2 ∧
    ((∀ (d : Level0Device) (p : Level0EventPool)
        (rest : List Level0EventPool), d.eventPools = p :: rest →
        p.lastIdx < p.events.length →
        (d.getNewEvent).1 = p.events.get? p.lastIdx ∧
        (d.getNewEvent).2.eventPools.length = d.eventPools.length) ∧
    (∀ d : Level0Device, 0 < d.eventPoolSize →
        headIsEmpty d.eventPools = true →
        (d.getNewEvent).1 = some d.nextHandle ∧
        ∃ q, (d.getNewEvent).2.eventPools = q :: d.eventPools ∧
          d.nextHandle ∈ q.events) ∧
    (acquireN (freshDev 2) 3).1 = (List.range' 0 3).map some ∧
    (acquireN (freshDev 2) 3).1.Nodup ∧
    (acquireN (freshDev 2) 2).2.eventPools.length = 1 ∧
    (acquireN (freshDev 2) 3).2.eventPools.length = 2) :=
  ⟨by decide, C4_eventPool_acquire 2 (by decide)⟩

/-! ## Chain lemmas (claims C1, C2, C3, C5 machinery) -/

theorem chainLinkedFrom_append (p : Option Nat)
    (l : List (Option Nat × List Nat)) (sg : Option Nat) (w : List Nat) :
    chainLinkedFrom p (l ++ [(sg, w)]) =
      (chainLinkedFrom p l && decide (w = (lastSigFrom p l).toList)) := by
  induction l generalizing p with
  | nil => simp [chainLinkedFrom, lastSigFrom]
  | cons a rest ih =>
    cases a
    simp [chainLinkedFrom, lastSigFrom, ih, Bool.and_assoc]

theorem lastSigFrom_append (p : Option Nat)
    (l : List (Option Nat × List Nat)) (sg : Option Nat) (w : List Nat) :
    lastSigFrom p (l ++ [(sg, w)]) = sg := by
  induction l generalizing p with
  | nil => simp [lastSigFrom]
  | cons a rest ih =>
    cases a
    simp [lastSigFrom, ih]

theorem chainOf_append (l1 l2 : List ListEntry) :
    chainOf (l1 ++ l2) = chainOf l1 ++ chainOf l2 := by
  simp [chainOf]

theorem allocNextFreeEvent_spec (s : WorkerState) (hwf : WorkerWF s) :
    ∃ h,
      (allocNextFreeEvent s).currentEventH = some h ∧
      (allocNextFreeEvent s).previousEventH = s.currentEventH ∧
      (allocNextFreeEvent s).deviceEventsToReset
        = s.deviceEventsToReset ++ [h] ∧
      (allocNextFreeEvent s).cmdList = s.cmdList ∧
      (allocNextFreeEvent s).useMemHostPtrsToSync = s.useMemHostPtrsToSync ∧
      (allocNextFreeEvent s).memPtrsToMakeResident
        = s.memPtrsToMakeResident ∧
      (allocNextFreeEvent s).aborted = s.aborted ∧
      WorkerWF (allocNextFreeEvent s) := by
  rcases hA : s.availableDeviceEvents with _ | ⟨a, t⟩
  · obtain ⟨h, h1, h2, h3, h4, h5⟩ := getNewEvent_fresh s.dev hwf.dev
    have hnotin : h ∉ s.deviceEventsToReset := by
      intro hmem
      exact hwf.resetNotMint h hmem h2
    refine ⟨h, ?_, ?_, ?_, ?_, ?_, ?_, ?_, ?_⟩
    · simp [allocNextFreeEvent, hA, h1]
    · simp [allocNextFreeEvent, hA]
    · simp [allocNextFreeEvent, hA, h1]
    · simp [allocNextFreeEvent, hA]
    · simp [allocNextFreeEvent, hA]
    · simp [allocNextFreeEvent, hA]
    · simp [allocNextFreeEvent, hA]
    · refine ⟨?_, ?_, ?_, ?_, ?_, ?_⟩
      · simpa [allocNextFreeEvent, hA] using h3
      · simp [allocNextFreeEvent, hA]
      · simp [allocNextFreeEvent, hA, h1]
        rw [List.nodup_append]
        refine ⟨hwf.resetNodup, List.nodup_singleton _, ?_⟩
        intro x hx hx2
        simp at hx2
        subst hx2
        exact hnotin hx
      · simp [allocNextFreeEvent, hA]
      · simp [allocNextFreeEvent, hA]
      · simp only [allocNextFreeEvent, hA]
        intro x hx
        simp [h1] at hx
        rcases hx with hx | hx
        · intro hcm
          exact hwf.resetNotMint x hx (h5 x hcm)
        · subst hx
          exact h4
  · have hnodupA : (a :: t).Nodup := by
      rw [← hA]
      exact hwf.availNodup
    have hmemA : a ∈ s.availableDeviceEvents := by rw [hA]; simp
    have hnotin : a ∉ s.deviceEventsToReset := hwf.disj a hmemA
    refine ⟨a, ?_, ?_, ?_, ?_, ?_, ?_, ?_, ?_⟩
    · simp [allocNextFreeEvent, hA]
    · simp [allocNextFreeEvent, hA]
    · simp [allocNextFreeEvent, hA]
    · simp [allocNextFreeEvent, hA]
    · simp [allocNextFreeEvent, hA]
    · simp [allocNextFreeEvent, hA]
    · simp [allocNextFreeEvent, hA]
    · refine ⟨?_, ?_, ?_, ?_, ?_, ?_⟩
      · simpa [allocNextFreeEvent, hA] using hwf.dev
      · simpa [allocNextFreeEvent, hA] using (List.nodup_cons.mp hnodupA).2
      · simp [allocNextFreeEvent, hA]
        rw [List.nodup_append]
        refine ⟨hwf.resetNodup, List.nodup_singleton _, ?_⟩
        intro x hx hx2
        simp at hx2
        subst hx2
        exact hnotin hx
      · simp only [allocNextFreeEvent, hA]
        intro x hx hmem
        have hxA : x ∈ s.availableDeviceEvents := by
          rw [hA]
          exact List.mem_cons_of_mem _ hx
        simp at hmem
        rcases hmem with hm | hm
        · exact hwf.disj x hxA hm
        · subst hm
          exact (List.nodup_cons.mp hnodupA).1 hx
      · simp only [allocNextFreeEvent, hA]
        intro x hx
        exact hwf.availNotMint x (by rw [hA]; exact List.mem_cons_of_mem _ hx)
      · simp only [allocNextFreeEvent, hA]
        intro x hx
        simp at hx
        rcases hx with hx | hx
        · exact hwf.resetNotMint x hx
        · subst hx
          exact hwf.availNotMint _ hmemA

/-- `WorkerWF` only looks at the device, the recycled handles and the
in-flight handles. -/
theorem WorkerWF_fields (s t : WorkerState)
    (hdev : t.dev = s.dev)
    (hav : t.availableDeviceEvents = s.availableDeviceEvents)
    (hrs : t.deviceEventsToReset = s.deviceEventsToReset)
    (hwf : WorkerWF s) : WorkerWF t := by
  refine ⟨?_, ?_, ?_, ?_, ?_, ?_⟩ <;>
    simp only [hdev, hav, hrs] <;>
    first
      | exact hwf.dev
      | exact hwf.availNodup
      | exact hwf.resetNodup
      | exact hwf.disj
      | exact hwf.availNotMint
      | exact hwf.resetNotMint

/-- Appending one chained operation preserves the construction
invariant: the new operation waits on the old `CurrentEventH`, signals a
fresh handle, and that handle joins `DeviceEventsToReset`. -/
theorem appendChained_inv (mk : Option Nat → List Nat → ListEntry)
    (hmk : ∀ a b, (mk a b).chainInfo = some (a, b))
    (s : WorkerState) (hinv : BuildInv s) :
    BuildInv (appendChained mk s) := by
  obtain ⟨h, h1, h2, h3, h4, h5, h6, h7, hwf1⟩ :=
    allocNextFreeEvent_spec s hinv.wf
  have hch : chainOf (appendChained mk s).cmdList
      = chainOf s.cmdList ++ [(some h, s.currentEventH.toList)] := by
    show chainOf ((allocNextFreeEvent s).cmdList ++ _) = _
    rw [chainOf_append, h4]
    congr 1
    simp [chainOf, hmk, h1, h2]
  refine ⟨?_, ?_, ?_, ?_⟩
  · exact WorkerWF_fields (allocNextFreeEvent s) _ rfl rfl rfl hwf1
  · rw [hch, chainLinkedFrom_append, hinv.linked]
    simp [← hinv.cur]
  · show (appendChained mk s).currentEventH = _
    rw [hch, lastSigFrom_append]
    show (allocNextFreeEvent s).currentEventH = _
    rw [h1]
  · show (chainOf (appendChained mk s).cmdList).map Prod.fst
      = (appendChained mk s).deviceEventsToReset.map some
    have hrs : (appendChained mk s).deviceEventsToReset
        = s.deviceEventsToReset ++ [h] := h3
    rw [hch, hrs]
    simp [hinv.sigs]

/-- `allocNextFreeEvent` leaves the command list, the transfer maps and the
abort flag untouched and shifts `CurrentEventH` into `PreviousEventH`. -/
theorem allocNextFreeEvent_frame (s : WorkerState) :
    (allocNextFreeEvent s).cmdList = s.cmdList ∧
    (allocNextFreeEvent s).useMemHostPtrsToSync = s.useMemHostPtrsToSync ∧
    (allocNextFreeEvent s).memPtrsToMakeResident = s.memPtrsToMakeResident ∧
    (allocNextFreeEvent s).aborted = s.aborted ∧
    (allocNextFreeEvent s).previousEventH = s.currentEventH := by
  cases hA : s.availableDeviceEvents <;> simp [allocNextFreeEvent, hA]

theorem appendChained_payload (mk : Option Nat → List Nat → ListEntry)
    (pl : OpPayload) (hpl : ∀ a b, (mk a b).payload = pl)
    (s : WorkerState) :
    (appendChained mk s).cmdList.map ListEntry.payload
      = s.cmdList.map ListEntry.payload ++ [pl] := by
  simp [appendChained, (allocNextFreeEvent_frame s).1, hpl]

/-- `syncUseMemHostPtr` only touches the `UseMemHostPtrsToSync` map. -/
theorem syncUseMemHostPtr_frame (m : MemObj) (off sz : Nat)
    (s : WorkerState) :
    (syncUseMemHostPtr m off sz s).cmdList = s.cmdList ∧
    (syncUseMemHostPtr m off sz s).currentEventH = s.currentEventH ∧
    (syncUseMemHostPtr m off sz s).previousEventH = s.previousEventH ∧
    (syncUseMemHostPtr m off sz s).availableDeviceEvents
      = s.availableDeviceEvents ∧
    (syncUseMemHostPtr m off sz s).deviceEventsToReset
      = s.deviceEventsToReset ∧
    (syncUseMemHostPtr m off sz s).memPtrsToMakeResident
      = s.memPtrsToMakeResident ∧
    (syncUseMemHostPtr m off sz s).dev = s.dev ∧
    (syncUseMemHostPtr m off sz s).aborted = s.aborted := by
  by_cases h1 : m.useHostPtr <;> by_cases h2 : m.memHostPtr = m.memPtr <;>
    simp [syncUseMemHostPtr, h1, h2]

/-- One step of the migrated-buffer loop (skip read-only, skip
host-no-access, else `syncUseMemHostPtr`) only touches the
`UseMemHostPtrsToSync` map. -/
theorem migStep_frame (m : MemObj) (s : WorkerState) :
    (if m.readOnly then s else if m.hostNoAccess then s
      else syncUseMemHostPtr m 0 m.size s).cmdList = s.cmdList ∧
    (if m.readOnly then s else if m.hostNoAccess then s
      else syncUseMemHostPtr m 0 m.size s).currentEventH
      = s.currentEventH ∧
    (if m.readOnly then s else if m.hostNoAccess then s
      else syncUseMemHostPtr m 0 m.size s).previousEventH
      = s.previousEventH ∧
    (if m.readOnly then s else if m.hostNoAccess then s
      else syncUseMemHostPtr m 0 m.size s).availableDeviceEvents
      = s.availableDeviceEvents ∧
    (if m.readOnly then s else if m.hostNoAccess then s
      else syncUseMemHostPtr m 0 m.size s).deviceEventsToReset
      = s.deviceEventsToReset ∧
    (if m.readOnly then s else if m.hostNoAccess then s
      else syncUseMemHostPtr m 0 m.size s).memPtrsToMakeResident
      = s.memPtrsToMakeResident ∧
    (if m.readOnly then s else if m.hostNoAccess then s
      else syncUseMemHostPtr m 0 m.size s).dev = s.dev ∧
    (if m.readOnly then s else if m.hostNoAccess then s
      else syncUseMemHostPtr m 0 m.size s).aborted = s.aborted := by
  by_cases h1 : m.readOnly <;> by_cases h2 : m.hostNoAccess <;>
    simp [h1, h2, (syncUseMemHostPtr_frame m 0 m.size s).1,
      (syncUseMemHostPtr_frame m 0 m.size s).2.1,
      (syncUseMemHostPtr_frame m 0 m.size s).2.2.1,
      (syncUseMemHostPtr_frame m 0 m.size s).2.2.2.1,
      (syncUseMemHostPtr_frame m 0 m.size s).2.2.2.2.1,
      (syncUseMemHostPtr_frame m 0 m.size s).2.2.2.2.2.1,
      (syncUseMemHostPtr_frame m 0 m.size s).2.2.2.2.2.2.1,
      (syncUseMemHostPtr_frame m 0 m.size s).2.2.2.2.2.2.2]

/-- `syncMigratedBuffers` only touches the `UseMemHostPtrsToSync` map. -/
theorem syncMigratedBuffers_frame (migs : List MemObj) :
    ∀ s : WorkerState,
      (syncMigratedBuffers migs s).cmdList = s.cmdList ∧
      (syncMigratedBuffers migs s).currentEventH = s.currentEventH ∧
      (syncMigratedBuffers migs s).previousEventH = s.previousEventH ∧
      (syncMigratedBuffers migs s).availableDeviceEvents
        = s.availableDeviceEvents ∧
      (syncMigratedBuffers migs s).deviceEventsToReset
        = s.deviceEventsToReset ∧
      (syncMigratedBuffers migs s).memPtrsToMakeResident
        = s.memPtrsToMakeResident ∧
      (syncMigratedBuffers migs s).dev = s.dev ∧
      (syncMigratedBuffers migs s).aborted = s.aborted := by
  induction migs with
  | nil =>
    intro s
    simp [syncMigratedBuffers]
  | cons m rest ih =>
    intro s
    obtain ⟨f1, f2, f3, f4, f5, f6, f7, f8⟩ := migStep_frame m s
    obtain ⟨g1, g2, g3, g4, g5, g6, g7, g8⟩ :=
      ih (if m.readOnly then s else if m.hostNoAccess then s
        else syncUseMemHostPtr m 0 m.size s)
    exact ⟨g1.trans f1, g2.trans f2, g3.trans f3, g4.trans f4,
      g5.trans f5, g6.trans f6, g7.trans f7, g8.trans f8⟩

/-- Transport of the construction invariant along states that agree on
every field the invariant mentions. -/
theorem BuildInv_fields (s t : WorkerState)
    (hdev : t.dev = s.dev)
    (hav : t.availableDeviceEvents = s.availableDeviceEvents)
    (hrs : t.deviceEventsToReset = s.deviceEventsToReset)
    (hcl : t.cmdList = s.cmdList)
    (hcur : t.currentEventH = s.currentEventH)
    (hinv : BuildInv s) : BuildInv t := by
  refine ⟨WorkerWF_fields s t hdev hav hrs hinv.wf, ?_, ?_, ?_⟩
  · rw [hcl]
    exact hinv.linked
  · rw [hcl, hcur]
    exact hinv.cur
  · rw [hcl, hrs]
    exact hinv.sigs

theorem appendEventToList_payload (c : CommandType) (s : WorkerState) :
    (appendEventToList c s).cmdList.map ListEntry.payload
      = s.cmdList.map ListEntry.payload ++ opPayloads c := by
  cases c with
  | readBuffer dst src off sz =>
    by_cases hskip : src.memPtr + off = dst
    · simp [appendEventToList, Level0Queue.read, opPayloads, hskip]
    · simp only [appendEventToList, Level0Queue.read, opPayloads,
        if_neg hskip]
      exact appendChained_payload _ _ (fun a b => rfl) s
  | writeBuffer src dst off sz =>
    by_cases hskip : dst.memPtr + off = src
    · simp [appendEventToList, Level0Queue.write, opPayloads, hskip,
        (syncUseMemHostPtr_frame dst off sz s).1]
    · simp only [appendEventToList, Level0Queue.write, opPayloads,
        if_neg hskip, (syncUseMemHostPtr_frame dst off sz _).1]
      exact appendChained_payload _ _ (fun a b => rfl) s
  | copyBuffer dst src doff soff sz =>
    simp only [appendEventToList, Level0Queue.copy, opPayloads,
      (syncUseMemHostPtr_frame dst doff sz _).1]
    exact appendChained_payload _ _ (fun a b => rfl) s
  | ndrangeKernel k ng acc migs =>
    show ((syncMigratedBuffers migs
        (runNDRangeKernel k ng acc s)).cmdList).map ListEntry.payload = _
    rw [(syncMigratedBuffers_frame migs (runNDRangeKernel k ng acc s)).1]
    by_cases hz : ng.1 * ng.2.1 * ng.2.2 = 0
    · simp [runNDRangeKernel, opPayloads, hz]
    · simp only [runNDRangeKernel, opPayloads, if_neg hz]
      exact appendChained_payload _ _ (fun a b => rfl) _
  | commandBufferKHR b =>
    simp [appendEventToList, opPayloads]

theorem appendEventToList_inv (c : CommandType) (s : WorkerState)
    (hinv : BuildInv s) : BuildInv (appendEventToList c s) := by
  cases c with
  | readBuffer dst src off sz =>
    by_cases hskip : src.memPtr + off = dst
    · simpa [appendEventToList, Level0Queue.read, hskip] using hinv
    · simp only [appendEventToList, Level0Queue.read, if_neg hskip]
      exact appendChained_inv
        (ListEntry.memCopy dst (src.memPtr + off) sz) (fun a b => rfl) s hinv
  | writeBuffer src dst off sz =>
    by_cases hskip : dst.memPtr + off = src
    · simp only [appendEventToList, Level0Queue.write, if_pos hskip]
      obtain ⟨f1, f2, f3, f4, f5, f6, f7, f8⟩ :=
        syncUseMemHostPtr_frame dst off sz s
      exact BuildInv_fields s _ f7 f4 f5 f1 f2 hinv
    · simp only [appendEventToList, Level0Queue.write, if_neg hskip]
      obtain ⟨f1, f2, f3, f4, f5, f6, f7, f8⟩ :=
        syncUseMemHostPtr_frame dst off sz
          (appendChained (ListEntry.memCopy (dst.memPtr + off) src sz) s)
      exact BuildInv_fields _ _ f7 f4 f5 f1 f2
        (appendChained_inv (ListEntry.memCopy (dst.memPtr + off) src sz)
          (fun a b => rfl) s hinv)
  | copyBuffer dst src doff soff sz =>
    simp only [appendEventToList, Level0Queue.copy]
    obtain ⟨f1, f2, f3, f4, f5, f6, f7, f8⟩ :=
      syncUseMemHostPtr_frame dst doff sz
        (appendChained (ListEntry.memCopy (dst.memPtr + doff)
          (src.memPtr + soff) sz) s)
    exact BuildInv_fields _ _ f7 f4 f5 f1 f2
      (appendChained_inv (ListEntry.memCopy (dst.memPtr + doff)
          (src.memPtr + soff) sz) (fun a b => rfl) s hinv)
  | ndrangeKernel k ng acc migs =>
    have hinner : BuildInv (runNDRangeKernel k ng acc s) := by
      by_cases hz : ng.1 * ng.2.1 * ng.2.2 = 0
      · simpa [runNDRangeKernel, hz] using hinv
      · simp only [runNDRangeKernel, if_neg hz]
        refine appendChained_inv (ListEntry.launchKernel k ng)
          (fun a b => rfl) _ ?_
        exact BuildInv_fields s _ rfl rfl rfl rfl rfl hinv
    obtain ⟨f1, f2, f3, f4, f5, f6, f7, f8⟩ :=
      syncMigratedBuffers_frame migs (runNDRangeKernel k ng acc s)
    exact BuildInv_fields _ _ f7 f4 f5 f1 f2 hinner
  | commandBufferKHR b =>
    simp only [appendEventToList]
    exact BuildInv_fields s _ rfl rfl rfl rfl rfl hinv

theorem foldl_appendEventToList_payload (batch : List Node) :
    ∀ s : WorkerState,
      ((batch.foldl (fun st n => appendEventToList n.cmd st) s).cmdList).map
          ListEntry.payload
        = s.cmdList.map ListEntry.payload
          ++ batch.flatMap (fun n => opPayloads n.cmd) := by
  induction batch with
  | nil =>
    intro s
    simp
  | cons n rest ih =>
    intro s
    rw [List.foldl_cons, ih (appendEventToList n.cmd s),
      appendEventToList_payload]
    simp

theorem foldl_appendEventToList_inv (batch : List Node) :
    ∀ s, BuildInv s →
      BuildInv (batch.foldl (fun st n => appendEventToList n.cmd st) s) := by
  induction batch with
  | nil =>
    intro s hinv
    simpa using hinv
  | cons n rest ih =>
    intro s hinv
    rw [List.foldl_cons]
    exact ih _ (appendEventToList_inv n.cmd s hinv)

theorem foldl_hostSync_inv (l : List ((Nat × Nat) × Nat)) :
    ∀ s, BuildInv s →
      BuildInv (l.foldl
        (fun st e => appendChained (.memCopy e.1.1 e.1.2 e.2) st) s) := by
  induction l with
  | nil =>
    intro s hinv
    simpa using hinv
  | cons e rest ih =>
    intro s hinv
    rw [List.foldl_cons]
    exact ih _ (appendChained_inv (ListEntry.memCopy e.1.1 e.1.2 e.2)
      (fun a b => rfl) s hinv)

theorem syncMemHostPtrs_inv (s : WorkerState) (hinv : BuildInv s) :
    BuildInv (syncMemHostPtrs s) := by
  have h1 := foldl_hostSync_inv s.useMemHostPtrsToSync s hinv
  refine BuildInv_fields _ _ ?_ ?_ ?_ ?_ ?_ h1 <;> rfl

theorem makeMemResident_inv (s : WorkerState) (hinv : BuildInv s) :
    BuildInv (makeMemResident s) :=
  BuildInv_fields s _ rfl rfl rfl rfl rfl hinv

theorem closeCmdList_spec (toCmdBuf : Bool) (s : WorkerState) :
    (closeCmdList toCmdBuf s).1.cmdList
      = s.cmdList ++ [ListEntry.barrier none s.currentEventH.toList]
        ++ s.deviceEventsToReset.map ListEntry.eventReset
        ++ [ListEntry.closeList] ∧
    (closeCmdList toCmdBuf s).1.deviceEventsToReset = [] ∧
    (closeCmdList toCmdBuf s).2
      = (if toCmdBuf then s.deviceEventsToReset else []) ∧
    (closeCmdList toCmdBuf s).1.availableDeviceEvents
      = (if toCmdBuf then s.availableDeviceEvents
         else s.availableDeviceEvents ++ s.deviceEventsToReset) ∧
    (closeCmdList toCmdBuf s).1.currentEventH = s.currentEventH ∧
    (closeCmdList toCmdBuf s).1.useMemHostPtrsToSync
      = s.useMemHostPtrsToSync ∧
    (closeCmdList toCmdBuf s).1.memPtrsToMakeResident
      = s.memPtrsToMakeResident ∧
    (closeCmdList toCmdBuf s).1.dev = s.dev := by
  refine ⟨?_, rfl, rfl, rfl, rfl, rfl, rfl, rfl⟩
  simp [closeCmdList]

theorem foldl_appendCmd_payload (cs : List CommandType) :
    ∀ s : WorkerState,
      ((cs.foldl (fun st c => appendEventToList c st) s).cmdList).map
          ListEntry.payload
        = s.cmdList.map ListEntry.payload ++ cs.flatMap opPayloads := by
  induction cs with
  | nil =>
    intro s
    simp
  | cons c rest ih =>
    intro s
    rw [List.foldl_cons, ih (appendEventToList c s), appendEventToList_payload]
    simp

theorem foldl_appendCmd_inv (cs : List CommandType) :
    ∀ s, BuildInv s →
      BuildInv (cs.foldl (fun st c => appendEventToList c st) s) := by
  induction cs with
  | nil =>
    intro s hinv
    simpa using hinv
  | cons c rest ih =>
    intro s hinv
    rw [List.foldl_cons]
    exact ih _ (appendEventToList_inv c s hinv)

/-- At the start of a list cycle (empty list, no chaining handles, no
in-flight handles) the construction invariant holds. -/
theorem BuildInv_start (s : WorkerState) (hwf : WorkerWF s)
    (hcl : s.cmdList = []) (hcur : s.currentEventH = none)
    (hrs : s.deviceEventsToReset = []) : BuildInv s := by
  refine ⟨hwf, ?_, ?_, ?_⟩ <;>
    simp [hcl, hcur, hrs, chainOf, chainLinkedFrom, lastSigFrom]

theorem freshDev_WF (n : Nat) (hn : 0 < n) : DevWF (freshDev n) := by
  refine ⟨hn, ?_, ?_⟩
  · intro p hp
    simp [freshDev, mkPool] at hp
    subst hp
    simpa using List.nodup_range' 0 n
  · intro p hp x hx
    simp [freshDev, mkPool] at hp
    subst hp
    simp only at hx
    have := List.mem_range'.mp hx
    simp [freshDev]
    omega

/-- A queue worker at the start of a list cycle (the state `reset()`
establishes, with the `execCommand` entry assertions), on a fresh device
with pool batch size 4. -/
def cleanWorker : WorkerState :=
  { dev := freshDev 4, currentEventH := none, previousEventH := none,
    availableDeviceEvents := [], deviceEventsToReset := [],
    useMemHostPtrsToSync := [], memPtrsToMakeResident := [], cmdList := [],
    aborted := false }

theorem cleanWorker_WF : WorkerWF cleanWorker := by
  refine ⟨freshDev_WF 4 (by decide), ?_, ?_, ?_, ?_, ?_⟩ <;>
    simp [cleanWorker]

/-- **C2.** During construction of one native command list, every appended
native operation takes the previous sync handle (the one signalled by the
immediately preceding appended operation) as its wait condition and
acquires a fresh current handle as its own signal target: after appending
any sequence of commands (including the host-visibility sync copies
drained before close), the operations of the list form a strict linear
chain (`chainLinkedFrom none`), their signal handles are exactly the
in-flight `DeviceEventsToReset` handles in order, and those handles are
pairwise distinct. -/
theorem C2_dependency_chain (ops : List CommandType) (s0 : WorkerState)
    (hwf : WorkerWF s0) (hcl : s0.cmdList = [])
    (hcur : s0.currentEventH = none) (hrs : s0.deviceEventsToReset = []) :
    ∀ sF, sF = syncMemHostPtrs (makeMemResident
        (ops.foldl (fun st c => appendEventToList c st) s0)) →
      chainLinkedFrom none (chainOf sF.cmdList) = true ∧
      (chainOf sF.cmdList).map Prod.fst
        = sF.deviceEventsToReset.map some ∧
      sF.deviceEventsToReset.Nodup := by
  intro sF hsF
  have hinv : BuildInv s0 := BuildInv_start s0 hwf hcl hcur hrs
  have h2 := syncMemHostPtrs_inv _ (makeMemResident_inv _
    (foldl_appendCmd_inv ops s0 hinv))
  rw [hsF]
  exact ⟨h2.linked, h2.sigs, h2.wf.resetNodup⟩

/-- The command sequence used by the C2 witness: a write, a copy and a
read targeting two buffers. -/
def c2Ops : List CommandType :=
  [CommandType.writeBuffer 500 ⟨100, 0, false, false, false, 64⟩ 0 16,
   CommandType.copyBuffer ⟨200, 0, false, false, false, 64⟩ ⟨100, 0, false, false, false, 64⟩ 0 0 16,
   CommandType.readBuffer 600 ⟨200, 0, false, false, false, 64⟩ 0 16]

/-- Witness for C2 on a concrete three-command sequence. -/
theorem C2_dependency_chain_witness :
    WorkerWF cleanWorker ∧
    (∀ sF, sF = syncMemHostPtrs (makeMemResident
        (c2Ops.foldl (fun st c => appendEventToList c st) cleanWorker)) →
      chainLinkedFrom none (chainOf sF.cmdList) = true ∧
      (chainOf sF.cmdList).map Prod.fst
        = sF.deviceEventsToReset.map some ∧
      sF.deviceEventsToReset.Nodup) :=
  ⟨cleanWorker_WF,
    C2_dependency_chain c2Ops cleanWorker cleanWorker_WF rfl rfl rfl⟩

/-- **C3.** For every native sync handle acquired while building a command
list, a reset operation for that handle is appended to the same list
before the list is closed; the signal handles are pairwise distinct (an
in-flight handle is never reissued); and at list close each used handle is
moved exactly once, either back to the worker's available set
(`EvtList == nullptr`) or into the owning command buffer's handle set. -/
theorem C3_reset_before_close (ops : List CommandType) (toCmdBuf : Bool)
    (s0 : WorkerState) (hwf : WorkerWF s0) (hcl : s0.cmdList = [])
    (hcur : s0.currentEventH = none) (hrs : s0.deviceEventsToReset = []) :
    ∀ sF, sF = syncMemHostPtrs (makeMemResident
        (ops.foldl (fun st c => appendEventToList c st) s0)) →
      (∀ h, some h ∈ (chainOf sF.cmdList).map Prod.fst →
        ListEntry.eventReset h ∈ (closeCmdList toCmdBuf sF).1.cmdList) ∧
      (closeCmdList toCmdBuf sF).1.cmdList
        = sF.cmdList ++ [ListEntry.barrier none sF.currentEventH.toList]
          ++ sF.deviceEventsToReset.map ListEntry.eventReset
          ++ [ListEntry.closeList] ∧
      ((chainOf sF.cmdList).map Prod.fst).Nodup ∧
      (closeCmdList toCmdBuf sF).1.deviceEventsToReset = [] ∧
      (toCmdBuf = true →
        (closeCmdList toCmdBuf sF).2 = sF.deviceEventsToReset ∧
        (closeCmdList toCmdBuf sF).1.availableDeviceEvents
          = sF.availableDeviceEvents) ∧
      (toCmdBuf = false →
        (closeCmdList toCmdBuf sF).2 = [] ∧
        (closeCmdList toCmdBuf sF).1.availableDeviceEvents
          = sF.availableDeviceEvents ++ sF.deviceEventsToReset) := by
  intro sF hsF
  have hinv : BuildInv s0 := BuildInv_start s0 hwf hcl hcur hrs
  have h2 : BuildInv sF := by
    rw [hsF]
    exact syncMemHostPtrs_inv _ (makeMemResident_inv _
      (foldl_appendCmd_inv ops s0 hinv))
  obtain ⟨hc1, hc2, hc3, hc4, _⟩ := closeCmdList_spec toCmdBuf sF
  refine ⟨?_, hc1, ?_, hc2, ?_, ?_⟩
  · intro h hmem
    rw [h2.sigs] at hmem
    have hin : h ∈ sF.deviceEventsToReset := by
      rcases List.mem_map.mp hmem with ⟨x, hx, hxe⟩
      rcases Option.some_injective _ hxe with rfl
      exact hx
    rw [hc1]
    refine List.mem_append.mpr (Or.inl ?_)
    refine List.mem_append.mpr (Or.inr ?_)
    exact List.mem_map.mpr ⟨h, hin, rfl⟩
  · rw [h2.sigs]
    exact h2.wf.resetNodup.map (Option.some_injective Nat)
  · intro ht
    subst ht
    simp at hc3 hc4
    exact ⟨hc3, hc4⟩
  · intro ht
    subst ht
    simp at hc3 hc4
    exact ⟨hc3, hc4⟩

/-- Witness for C3 on the concrete three-command sequence, with the
handles recycled to the worker's available set. -/
theorem C3_reset_before_close_witness :
    WorkerWF cleanWorker ∧
    (∀ sF, sF = syncMemHostPtrs (makeMemResident
        (c2Ops.foldl (fun st c => appendEventToList c st) cleanWorker)) →
      (∀ h, some h ∈ (chainOf sF.cmdList).map Prod.fst →
        ListEntry.eventReset h ∈ (closeCmdList false sF).1.cmdList) ∧
      (closeCmdList false sF).1.cmdList
        = sF.cmdList ++ [ListEntry.barrier none sF.currentEventH.toList]
          ++ sF.deviceEventsToReset.map ListEntry.eventReset
          ++ [ListEntry.closeList] ∧
      ((chainOf sF.cmdList).map Prod.fst).Nodup ∧
      (closeCmdList false sF).1.deviceEventsToReset = [] ∧
      (false = true →
        (closeCmdList false sF).2 = sF.deviceEventsToReset ∧
        (closeCmdList false sF).1.availableDeviceEvents
          = sF.availableDeviceEvents) ∧
      (false = false →
        (closeCmdList false sF).2 = [] ∧
        (closeCmdList false sF).1.availableDeviceEvents
          = sF.availableDeviceEvents ++ sF.deviceEventsToReset)) :=
  ⟨cleanWorker_WF,
    C3_reset_before_close c2Ops false cleanWorker cleanWorker_WF
      rfl rfl rfl⟩

/-- **C10.** For a read-buffer or write-buffer command whose host pointer
equals the buffer's device pointer plus the command's offset, `read` /
`write` append no memory-copy operation (the transfer is a no-op and the
worker state is untouched); for every other pointer value they append
exactly one memory-copy operation, chained on the worker's event pair. -/
theorem C10_read_write_skip (hostPtr memPtr offset size : Nat)
    (s : WorkerState) :
    (memPtr + offset = hostPtr →
      Level0Queue.read hostPtr memPtr offset size s = s ∧
      Level0Queue.write hostPtr memPtr offset size s = s) ∧
    (memPtr + offset ≠ hostPtr →
      (Level0Queue.read hostPtr memPtr offset size s).cmdList
        = s.cmdList ++ [ListEntry.memCopy hostPtr (memPtr + offset) size
            (allocNextFreeEvent s).currentEventH
            (allocNextFreeEvent s).previousEventH.toList] ∧
      (Level0Queue.write hostPtr memPtr offset size s).cmdList
        = s.cmdList ++ [ListEntry.memCopy (memPtr + offset) hostPtr size
            (allocNextFreeEvent s).currentEventH
            (allocNextFreeEvent s).previousEventH.toList]) := by
  constructor
  · intro he
    simp [Level0Queue.read, Level0Queue.write, he]
  · intro hne
    constructor
    · simp only [Level0Queue.read, if_neg hne, appendChained,
        (allocNextFreeEvent_frame s).1]
    · simp only [Level0Queue.write, if_neg hne, appendChained,
        (allocNextFreeEvent_frame s).1]

/-- Witness for C10: on the clean worker, a transfer at host pointer 100 =
device pointer 100 + offset 0 is skipped; one at host pointer 999 appends
exactly one copy. -/
theorem C10_read_write_skip_witness :
    (Level0Queue.read 100 100 0 16 cleanWorker = cleanWorker ∧
      Level0Queue.write 100 100 0 16 cleanWorker = cleanWorker) ∧
    ((Level0Queue.read 999 100 0 16 cleanWorker).cmdList
        = cleanWorker.cmdList ++ [ListEntry.memCopy 999 (100 + 0) 16
            (allocNextFreeEvent cleanWorker).currentEventH
            (allocNextFreeEvent cleanWorker).previousEventH.toList] ∧
      (Level0Queue.write 999 100 0 16 cleanWorker).cmdList
        = cleanWorker.cmdList ++ [ListEntry.memCopy (100 + 0) 999 16
            (allocNextFreeEvent cleanWorker).currentEventH
            (allocNextFreeEvent cleanWorker).previousEventH.toList]) :=
  ⟨(C10_read_write_skip 100 100 0 16 cleanWorker).1 (by decide),
    (C10_read_write_skip 999 100 0 16 cleanWorker).2 (by decide)⟩

/-! ## Claim C1: batch execution -/

def CommandType.isCommandBuffer : CommandType → Bool
  | .commandBufferKHR _ => true
  | _ => false

theorem marks_countP (batch : List Node) (p : Action → Bool)
    (hp : ∀ e : Nat, p (Action.markSubmitted e) = false ∧
      p (Action.markRunning e) = false) :
    (batch.flatMap fun n =>
      [Action.markSubmitted n.eventId,
        Action.markRunning n.eventId]).countP p = 0 := by
  induction batch with
  | nil => simp
  | cons n rest ih =>
    simp [List.countP_cons, List.countP_append, ih,
      (hp n.eventId).1, (hp n.eventId).2]

theorem marks_filterMap_running (batch : List Node) :
    (batch.flatMap fun n =>
      [Action.markSubmitted n.eventId,
        Action.markRunning n.eventId]).filterMap Action.runningOf
      = batch.map Node.eventId := by
  induction batch with
  | nil => simp
  | cons n rest ih => simp [Action.runningOf, ih]

theorem marks_filterMap_complete (batch : List Node) :
    (batch.flatMap fun n =>
      [Action.markSubmitted n.eventId,
        Action.markRunning n.eventId]).filterMap Action.completeOf
      = [] := by
  induction batch with
  | nil => simp
  | cons n rest ih => simp [Action.completeOf, ih]

/-- **C1 (amended).** For every non-empty pre-batched group that is not a
command-buffer replay, `execCommandBatch` appends every node's native
operations into the one command list in the batch's FIFO order, submits
the list exactly once, marks every node's Result Handle submitted and
running in the original batch order, synchronizes exactly once, and then
marks every node's Result Handle complete in the original batch order.
(The spec sentence places the running marks after the synchronize; the
code places them after the submit and before the synchronize —
see the counterexample.) -/
theorem C1_exec_batch (batch : List Node) (s0 : WorkerState)
    (hwf : WorkerWF s0) (hcl : s0.cmdList = [])
    (hcur : s0.currentEventH = none) (hrs : s0.deviceEventsToReset = [])
    (hne : batch ≠ [])
    (hnocb : ∀ n ∈ batch, n.cmd.isCommandBuffer = false) :
    ((batch.foldl (fun st n => appendEventToList n.cmd st) s0).cmdList).map
        ListEntry.payload
      = batch.flatMap (fun n => opPayloads n.cmd) ∧
    (execCommandBatch s0 batch).2
      = Action.submitList (execCommandBatch s0 batch).1.cmdList ::
          (batch.flatMap fun n =>
            [Action.markSubmitted n.eventId, Action.markRunning n.eventId])
          ++ [Action.synchronize]
          ++ (batch.map fun n => Action.markComplete n.eventId) ∧
    (execCommandBatch s0 batch).2.countP Action.isSubmit = 1 ∧
    (execCommandBatch s0 batch).2.countP Action.isSynchronize = 1 ∧
    (execCommandBatch s0 batch).2.filterMap Action.runningOf
      = batch.map Node.eventId ∧
    (execCommandBatch s0 batch).2.filterMap Action.completeOf
      = batch.map Node.eventId := by
  refine ⟨?_, rfl, ?_, ?_, ?_, ?_⟩
  · rw [foldl_appendEventToList_payload batch s0, hcl]
    simp
  · show (Action.submitList _ ::
      ((batch.flatMap fun n =>
        [Action.markSubmitted n.eventId, Action.markRunning n.eventId])
        ++ [Action.synchronize]
        ++ (batch.map fun n => Action.markComplete n.eventId))).countP
          Action.isSubmit = 1
    rw [List.countP_cons]
    simp only [List.countP_append,
      marks_countP batch Action.isSubmit (fun e => ⟨rfl, rfl⟩)]
    have hcm : ((batch.map fun n => Action.markComplete n.eventId).countP
        Action.isSubmit) = 0 := by
      rw [List.countP_eq_zero]
      intro a ha
      rcases List.mem_map.mp ha with ⟨n, _, rfl⟩
      simp [Action.isSubmit]
    simp [hcm, Action.isSubmit]
  · show (Action.submitList _ ::
      ((batch.flatMap fun n =>
        [Action.markSubmitted n.eventId, Action.markRunning n.eventId])
        ++ [Action.synchronize]
        ++ (batch.map fun n => Action.markComplete n.eventId))).countP
          Action.isSynchronize = 1
    rw [List.countP_cons]
    simp only [List.countP_append,
      marks_countP batch Action.isSynchronize (fun e => ⟨rfl, rfl⟩)]
    have hcm : ((batch.map fun n => Action.markComplete n.eventId).countP
        Action.isSynchronize) = 0 := by
      rw [List.countP_eq_zero]
      intro a ha
      rcases List.mem_map.mp ha with ⟨n, _, rfl⟩
      simp [Action.isSynchronize]
    simp [hcm, Action.isSynchronize]
  · show (Action.submitList _ ::
      ((batch.flatMap fun n =>
        [Action.markSubmitted n.eventId, Action.markRunning n.eventId])
        ++ [Action.synchronize]
        ++ (batch.map fun n => Action.markComplete n.eventId))).filterMap
          Action.runningOf = batch.map Node.eventId
    simp [List.filterMap_append, marks_filterMap_running,
      Action.runningOf, List.filterMap_map]
  · show (Action.submitList _ ::
      ((batch.flatMap fun n =>
        [Action.markSubmitted n.eventId, Action.markRunning n.eventId])
        ++ [Action.synchronize]
        ++ (batch.map fun n => Action.markComplete n.eventId))).filterMap
          Action.completeOf = batch.map Node.eventId
    simp only [List.filterMap_cons, List.filterMap_append,
      marks_filterMap_complete, Action.completeOf, List.filterMap_map]
    clear hne hnocb
    induction batch with
    | nil => simp
    | cons n rest ih => simpa [Action.completeOf] using ih

/-- True when every running mark of the trace is placed after every
synchronize, i.e. when no synchronize occurs once a running mark has been
issued — the ordering the spec sentence for batch execution asserts. -/
def noSyncAfterRunning : List Action → Bool
  | [] => true
  | a :: rest =>
    if (a.runningOf).isSome then
      (rest.all fun b => !b.isSynchronize) && noSyncAfterRunning rest
    else
      noSyncAfterRunning rest

/-- The batch-execution claim exactly as stated: node operations appended
in FIFO order, one submit, one synchronize, running and complete marks in
batch order, and the running marks placed after the synchronize. -/
def C1Stated (s0 : WorkerState) (batch : List Node) : Prop :=
  ((batch.foldl (fun st n => appendEventToList n.cmd st) s0).cmdList).map
      ListEntry.payload = batch.flatMap (fun n => opPayloads n.cmd) ∧
  (execCommandBatch s0 batch).2.countP Action.isSubmit = 1 ∧
  (execCommandBatch s0 batch).2.countP Action.isSynchronize = 1 ∧
  (execCommandBatch s0 batch).2.filterMap Action.runningOf
    = batch.map Node.eventId ∧
  (execCommandBatch s0 batch).2.filterMap Action.completeOf
    = batch.map Node.eventId ∧
  noSyncAfterRunning (execCommandBatch s0 batch).2 = true

/-- The one-command batch used against claim C1: a buffer copy whose
Result Handle is event 7. -/
def c1Batch : List Node :=
  [{ eventId := 7,
     cmd := CommandType.copyBuffer ⟨200, 0, false, false, false, 64⟩ ⟨100, 0, false, false, false, 64⟩ 0 0 16 }]

/-- Counterexample to C1 as stated: already on a one-command batch the
running mark is issued after the submit but *before* the synchronize, so
the "submit, synchronize, then mark running then complete" ordering of
the spec sentence does not hold. -/
theorem C1_exec_batch_counterexample :
    ¬ C1Stated cleanWorker c1Batch := by
  unfold C1Stated
  decide

/-- Witness for the amended C1 on the concrete one-command batch. -/
theorem C1_exec_batch_witness :
    WorkerWF cleanWorker ∧ c1Batch ≠ [] ∧
    (((c1Batch.foldl (fun st n => appendEventToList n.cmd st)
        cleanWorker).cmdList).map ListEntry.payload
      = c1Batch.flatMap (fun n => opPayloads n.cmd) ∧
    (execCommandBatch cleanWorker c1Batch).2
      = Action.submitList (execCommandBatch cleanWorker c1Batch).1.cmdList ::
          (c1Batch.flatMap fun n =>
            [Action.markSubmitted n.eventId, Action.markRunning n.eventId])
          ++ [Action.synchronize]
          ++ (c1Batch.map fun n => Action.markComplete n.eventId) ∧
    (execCommandBatch cleanWorker c1Batch).2.countP Action.isSubmit = 1 ∧
    (execCommandBatch cleanWorker c1Batch).2.countP Action.isSynchronize
      = 1 ∧
    (execCommandBatch cleanWorker c1Batch).2.filterMap Action.runningOf
      = c1Batch.map Node.eventId ∧
    (execCommandBatch cleanWorker c1Batch).2.filterMap Action.completeOf
      = c1Batch.map Node.eventId) :=
  ⟨cleanWorker_WF, by decide,
    C1_exec_batch c1Batch cleanWorker cleanWorker_WF rfl rfl rfl
      (by decide) (by decide)⟩

/-! ## Claim C7: zero work-group launches -/

/-- The zero-size-launch claim exactly as stated: nothing is appended to
the native command list and the Result Handle goes directly from
submitted to complete (no running mark). -/
def C7Stated (s : WorkerState) (n : Node) : Prop :=
  (execCommand s n).1.cmdList = s.cmdList ∧
  (execCommand s n).2.filterMap Action.runningOf = []

/-- A kernel launch with `num_groups = (0, 4, 4)`, i.e. total work-group
count zero, tracked by event 3. -/
def c7Node : Node :=
  { eventId := 3, cmd := CommandType.ndrangeKernel 1 (0, 4, 4) [] [] }

/-- Counterexample to C7 as stated: executing a zero-work-group launch
still appends the close-phase barrier (and the list close) to the native
command list, and the Result Handle is marked *running* before complete
rather than jumping from submitted to complete. -/
theorem C7_zero_launch_counterexample : ¬ C7Stated cleanWorker c7Node := by
  unfold C7Stated
  decide

/-- If no migrated buffer of the list needs a host-visibility sync
(each is read-only, host-inaccessible, not `CL_MEM_USE_HOST_PTR`, or
host-visible already), the migrated-buffer loop is the identity. -/
theorem syncMigratedBuffers_skip (migs : List MemObj) :
    ∀ s, (∀ m ∈ migs, m.useHostPtr = false ∨ m.memHostPtr = m.memPtr ∨
        m.readOnly = true ∨ m.hostNoAccess = true) →
      syncMigratedBuffers migs s = s := by
  induction migs with
  | nil =>
    intro s _
    rfl
  | cons m rest ih =>
    intro s hskip
    have hm := hskip m (List.mem_cons_self _ _)
    have hstep : (if m.readOnly then s else if m.hostNoAccess then s
        else syncUseMemHostPtr m 0 m.size s) = s := by
      by_cases h1 : m.readOnly
      · simp [h1]
      · by_cases h2 : m.hostNoAccess
        · simp [h1, h2]
        · rcases hm with hu | he | hro | hna
          · simp [h1, h2, syncUseMemHostPtr, hu]
          · simp [h1, h2, syncUseMemHostPtr, he]
          · exact absurd hro (by simp [h1])
          · exact absurd hna (by simp [h2])
    show syncMigratedBuffers rest (if m.readOnly then s
      else if m.hostNoAccess then s
      else syncUseMemHostPtr m 0 m.size s) = s
    rw [hstep]
    exact ih s (fun x hx => hskip x (List.mem_cons_of_mem _ hx))

/-- **C7 (amended).** An ND-range launch with total work-group count zero
appends no operation of its own: `runNDRangeKernel` returns before
touching the list, the event chain or the residency map, and the only
other work `appendEventToList` performs for the node — the
migrated-buffer host-sync loop, which runs even for the zero case —
never touches the command list, the event chain or the device at append
time.  When no migrated buffer needs a host-visibility sync, executing
the node appends only the wait-free close barrier and the
`zeCommandListClose`, and its Result Handle is marked running and then
complete — not directly submitted to complete. -/
theorem C7_zero_launch (k : Nat) (ng : Nat × Nat × Nat)
    (acc : List (Nat × Nat)) (migInfos : List MemObj) (ev : Nat)
    (s : WorkerState)
    (hz : ng.1 * ng.2.1 * ng.2.2 = 0) (hcur : s.currentEventH = none)
    (hrs : s.deviceEventsToReset = [])
    (hsync : s.useMemHostPtrsToSync = []) :
    runNDRangeKernel k ng acc s = s ∧
    appendEventToList (CommandType.ndrangeKernel k ng acc migInfos) s
      = syncMigratedBuffers migInfos s ∧
    (appendEventToList (CommandType.ndrangeKernel k ng acc migInfos)
        s).cmdList = s.cmdList ∧
    (appendEventToList (CommandType.ndrangeKernel k ng acc migInfos)
        s).dev = s.dev ∧
    (appendEventToList (CommandType.ndrangeKernel k ng acc migInfos)
        s).deviceEventsToReset = s.deviceEventsToReset ∧
    ((∀ m ∈ migInfos, m.useHostPtr = false ∨ m.memHostPtr = m.memPtr ∨
        m.readOnly = true ∨ m.hostNoAccess = true) →
      (execCommand s
          ⟨ev, CommandType.ndrangeKernel k ng acc migInfos⟩).1.cmdList
        = s.cmdList ++ [ListEntry.barrier none [], ListEntry.closeList] ∧
      (execCommand s
          ⟨ev, CommandType.ndrangeKernel k ng acc migInfos⟩).1.dev
        = s.dev ∧
      (execCommand s
          ⟨ev, CommandType.ndrangeKernel k ng acc migInfos⟩).2
        = [Action.submitList
            (s.cmdList ++ [ListEntry.barrier none [],
              ListEntry.closeList]),
           Action.markRunning ev, Action.synchronize,
           Action.markComplete ev]) := by
  have h1 : runNDRangeKernel k ng acc s = s := by
    simp [runNDRangeKernel, hz]
  have h2 : appendEventToList
      (CommandType.ndrangeKernel k ng acc migInfos) s
      = syncMigratedBuffers migInfos s := by
    show syncMigratedBuffers migInfos (runNDRangeKernel k ng acc s) = _
    rw [h1]
  obtain ⟨f1, f2, f3, f4, f5, f6, f7, f8⟩ :=
    syncMigratedBuffers_frame migInfos s
  refine ⟨h1, h2, ?_, ?_, ?_, ?_⟩
  · rw [h2]
    exact f1
  · rw [h2]
    exact f7
  · rw [h2]
    exact f5
  · intro hskip
    have h3 : appendEventToList
        (CommandType.ndrangeKernel k ng acc migInfos) s = s :=
      h2.trans (syncMigratedBuffers_skip migInfos s hskip)
    refine ⟨?_, ?_, ?_⟩ <;>
      simp [execCommand, h3, makeMemResident, syncMemHostPtrs, hsync,
        closeCmdList, hcur, hrs]

/-- Witness for the amended C7 at a concrete zero-size launch whose one
migrated buffer needs no host sync. -/
theorem C7_zero_launch_witness :
    (0 : Nat) * 4 * 4 = 0 ∧
    (runNDRangeKernel 1 (0, 4, 4) [] cleanWorker = cleanWorker ∧
    appendEventToList (CommandType.ndrangeKernel 1 (0, 4, 4) []
        [⟨100, 0, false, false, false, 64⟩]) cleanWorker
      = syncMigratedBuffers [⟨100, 0, false, false, false, 64⟩]
          cleanWorker ∧
    (appendEventToList (CommandType.ndrangeKernel 1 (0, 4, 4) []
        [⟨100, 0, false, false, false, 64⟩]) cleanWorker).cmdList
      = cleanWorker.cmdList ∧
    (appendEventToList (CommandType.ndrangeKernel 1 (0, 4, 4) []
        [⟨100, 0, false, false, false, 64⟩]) cleanWorker).dev
      = cleanWorker.dev ∧
    (appendEventToList (CommandType.ndrangeKernel 1 (0, 4, 4) []
        [⟨100, 0, false, false, false, 64⟩])
        cleanWorker).deviceEventsToReset
      = cleanWorker.deviceEventsToReset ∧
    ((∀ m ∈ [(⟨100, 0, false, false, false, 64⟩ : MemObj)],
        m.useHostPtr = false ∨ m.memHostPtr = m.memPtr ∨
        m.readOnly = true ∨ m.hostNoAccess = true) →
      (execCommand cleanWorker
          ⟨3, CommandType.ndrangeKernel 1 (0, 4, 4) []
            [⟨100, 0, false, false, false, 64⟩]⟩).1.cmdList
        = cleanWorker.cmdList
          ++ [ListEntry.barrier none [], ListEntry.closeList] ∧
      (execCommand cleanWorker
          ⟨3, CommandType.ndrangeKernel 1 (0, 4, 4) []
            [⟨100, 0, false, false, false, 64⟩]⟩).1.dev
        = cleanWorker.dev ∧
      (execCommand cleanWorker
          ⟨3, CommandType.ndrangeKernel 1 (0, 4, 4) []
            [⟨100, 0, false, false, false, 64⟩]⟩).2
        = [Action.submitList (cleanWorker.cmdList
            ++ [ListEntry.barrier none [], ListEntry.closeList]),
           Action.markRunning 3, Action.synchronize,
           Action.markComplete 3])) :=
  ⟨by decide,
    C7_zero_launch 1 (0, 4, 4) [] [⟨100, 0, false, false, false, 64⟩] 3
      cleanWorker (by decide) rfl rfl rfl⟩

/-! ## Claim C8: the run loop at shutdown -/

/-- The run loop is exactly the `do { getWorkOrWait; execute } while
(!ShouldExit)` composition: one fetch, then either exit (when the fetch
returned `ShouldExit = true`) or recurse. -/
theorem runThreadLoop_step (g : QueueGroupState) :
    runThreadLoop g =
      match getWorkOrWait g with
      | none => ([], g, LoopOutcome.blocked)
      | some (.noWork, g2, _) => ([], g2, LoopOutcome.exited)
      | some (.node n, g2, se) =>
        if se then ([WorkItem.single n], g2, LoopOutcome.exited)
        else
          (WorkItem.single n :: (runThreadLoop g2).1, (runThreadLoop g2).2)
      | some (.batch b, g2, se) =>
        if se then ([WorkItem.batch b], g2, LoopOutcome.exited)
        else
          (WorkItem.batch b :: (runThreadLoop g2).1, (runThreadLoop g2).2) := by
  rcases g with ⟨wq, bq, ex, av⟩
  rcases wq with _ | ⟨n, t⟩
  · rcases bq with _ | ⟨b, bt⟩
    · cases ex <;> simp [runThreadLoop, getWorkOrWait]
    · cases ex <;> simp [runThreadLoop, getWorkOrWait]
  · cases ex <;> simp [runThreadLoop, getWorkOrWait]

/-- When the shutdown flag is already set, the loop performs exactly one
`getWorkOrWait` iteration and exits: at most one item is executed, and
every other queued item stays in the FIFOs. -/
theorem runThreadLoop_exit (g : QueueGroupState)
    (hex : g.threadExitRequested = true) :
    (runThreadLoop g).2.2 = LoopOutcome.exited ∧
    (runThreadLoop g).1.length ≤ 1 ∧
    (runThreadLoop g).2.1.workQueue.length
        + (runThreadLoop g).2.1.batchWorkQueue.length
        + (runThreadLoop g).1.length
      = g.workQueue.length + g.batchWorkQueue.length := by
  rcases g with ⟨wq, bq, ex, av⟩
  simp only at hex
  subst hex
  rcases wq with _ | ⟨n, t⟩
  · rcases bq with _ | ⟨b, bt⟩ <;> simp [runThreadLoop]
  · simp [runThreadLoop]
    omega

/-- While the shutdown flag is not set, the loop drains the single-command
FIFO, then the batch FIFO, and then blocks on the condition variable. -/
theorem runThreadLoop_drain :
    ∀ (wq : List NodeK) (bq : List (List NodeK)) (av : Bool),
      (runThreadLoop ⟨wq, bq, false, av⟩).1
        = wq.map WorkItem.single ++ bq.map WorkItem.batch ∧
      (runThreadLoop ⟨wq, bq, false, av⟩).2.2 = LoopOutcome.blocked ∧
      (runThreadLoop ⟨wq, bq, false, av⟩).2.1.workQueue = [] ∧
      (runThreadLoop ⟨wq, bq, false, av⟩).2.1.batchWorkQueue = [] := by
  intro wq
  induction wq with
  | nil =>
    intro bq
    induction bq with
    | nil =>
      intro av
      simp [runThreadLoop]
    | cons b bt ihb =>
      intro av
      obtain ⟨i1, i2, i3, i4⟩ := ihb av
      simp [runThreadLoop, i1, i2, i3, i4]
  | cons n t ih =>
    intro bq av
    obtain ⟨i1, i2, i3, i4⟩ := ih bq av
    simp [runThreadLoop, i1, i2, i3, i4]

/-- The shutdown claim exactly as stated: every command or batch still in
the FIFOs when the shutdown flag is set is executed before the loop
terminates (both FIFOs are empty at exit). -/
def C8Stated (g : QueueGroupState) : Prop :=
  g.threadExitRequested = true →
    (runThreadLoop g).2.2 = LoopOutcome.exited ∧
    (runThreadLoop g).2.1.workQueue = [] ∧
    (runThreadLoop g).2.1.batchWorkQueue = []

/-- A queue group with two single commands still queued and the shutdown
flag already set. -/
def c8Group : QueueGroupState :=
  { workQueue := [{ eventId := 1, kind := CmdKind.readBuffer },
      { eventId := 2, kind := CmdKind.readBuffer }],
    batchWorkQueue := [], threadExitRequested := true, available := true }

/-- Counterexample to C8 as stated: with two commands queued at shutdown,
`getWorkOrWait` returns the first command together with `ShouldExit =
true`, the `do … while (!ShouldExit)` loop executes it and exits, and the
second command is left unexecuted in the FIFO. -/
theorem C8_run_loop_counterexample : ¬ C8Stated c8Group := by
  unfold C8Stated
  intro h
  obtain ⟨h1, h2, h3⟩ := h rfl
  simp [c8Group, runThreadLoop] at h2

/-- **C8 (amended).** The run loop exits only when shutdown has been
requested.  While the flag is unset the worker executes every queued item
(single-command FIFO first, then batches) and then blocks awaiting more
work; once the flag is set, the worker fetches and executes at most one
more item and exits, and every remaining item stays in the FIFOs
unexecuted. -/
theorem C8_run_loop (g : QueueGroupState) :
    ((runThreadLoop g).2.2 = LoopOutcome.exited →
      g.threadExitRequested = true) ∧
    (g.threadExitRequested = true →
      (runThreadLoop g).2.2 = LoopOutcome.exited ∧
      (runThreadLoop g).1.length ≤ 1 ∧
      (runThreadLoop g).2.1.workQueue.length
          + (runThreadLoop g).2.1.batchWorkQueue.length
          + (runThreadLoop g).1.length
        = g.workQueue.length + g.batchWorkQueue.length) ∧
    (g.threadExitRequested = false →
      (runThreadLoop g).1 = g.workQueue.map WorkItem.single
          ++ g.batchWorkQueue.map WorkItem.batch ∧
      (runThreadLoop g).2.2 = LoopOutcome.blocked ∧
      (runThreadLoop g).2.1.workQueue = [] ∧
      (runThreadLoop g).2.1.batchWorkQueue = []) := by
  refine ⟨?_, fun h => runThreadLoop_exit g h, ?_⟩
  · intro hexit
    cases hfl : g.threadExitRequested
    · rcases g with ⟨wq, bq, ex, av⟩
      simp only at hfl
      subst hfl
      have hbl := (runThreadLoop_drain wq bq av).2.1
      exact absurd (hbl.symm.trans hexit) (by simp)
    · rfl
  · intro h
    rcases g with ⟨wq, bq, ex, av⟩
    simp only at h
    subst h
    exact runThreadLoop_drain wq bq av

/-- Witness for the amended C8 on the concrete two-command shutdown
scenario. -/
theorem C8_run_loop_witness :
    (runThreadLoop c8Group).2.2 = LoopOutcome.exited ∧
    (runThreadLoop c8Group).1.length ≤ 1 ∧
    (runThreadLoop c8Group).2.1.workQueue.length
        + (runThreadLoop c8Group).2.1.batchWorkQueue.length
        + (runThreadLoop c8Group).1.length
      = c8Group.workQueue.length + c8Group.batchWorkQueue.length :=
  (C8_run_loop c8Group).2.1 rfl

/-! ## Claims C6 and C9: device dispatch -/

/-- The dispatch claim exactly as stated: every pushed node goes to the
Compute Queue Group when it is available, else to the Copy Queue Group,
else to the Universal Queue Group — one fallback chain for all kinds. -/
def C6Stated : Prop :=
  ∀ (d : DispatchState) (n : NodeK),
    Level0Device.pushCommand d n =
      (if d.computeQueues.available then
        { d with computeQueues := d.computeQueues.pushWork n }
      else if d.copyQueues.available then
        { d with copyQueues := d.copyQueues.pushWork n }
      else
        { d with universalQueues := d.universalQueues.pushWork n })

/-- A dispatch state in which all three queue groups are available and
empty. -/
def c6Dispatch : DispatchState :=
  { computeQueues := ⟨[], [], false, true⟩,
    copyQueues := ⟨[], [], false, true⟩,
    universalQueues := ⟨[], [], false, true⟩,
    supportsCmdQBatching := true }

/-- Counterexample to C6 as stated: a read-buffer (copy-class) node pushed
while the Compute group is available goes to the Copy group, not — as the
single fallback chain of the sentence would require — to the Compute
group. -/
theorem C6_pushCommand_counterexample : ¬ C6Stated := by
  intro h
  have h2 := congrArg (fun d => d.copyQueues.workQueue)
    (h c6Dispatch { eventId := 5, kind := CmdKind.readBuffer })
  simp [c6Dispatch, Level0Device.pushCommand, QueueGroupState.pushWork,
    isComputeClass] at h2

/-- **C6 (amended).** `pushCommand` classifies the node's kind:
compute-class kinds (ND-range kernel, SVM/Intel memfill, fill buffer,
fill image) go to the Compute Queue Group when it is available and to the
Universal Queue Group otherwise; every other kind goes to the Copy Queue
Group when it is available and to the Universal Queue Group otherwise;
exactly one group receives the node and only its single-command FIFO
changes. -/
theorem C6_pushCommand (d : DispatchState) (n : NodeK) :
    (isComputeClass n.kind = true →
      (d.computeQueues.available = true →
        Level0Device.pushCommand d n
          = { d with computeQueues := d.computeQueues.pushWork n }) ∧
      (d.computeQueues.available = false →
        Level0Device.pushCommand d n
          = { d with universalQueues := d.universalQueues.pushWork n })) ∧
    (isComputeClass n.kind = false →
      (d.copyQueues.available = true →
        Level0Device.pushCommand d n
          = { d with copyQueues := d.copyQueues.pushWork n }) ∧
      (d.copyQueues.available = false →
        Level0Device.pushCommand d n
          = { d with universalQueues := d.universalQueues.pushWork n })) := by
  constructor
  · intro hcls
    constructor <;> intro hav <;>
      simp [Level0Device.pushCommand, hcls, hav]
  · intro hcls
    constructor <;> intro hav <;>
      simp [Level0Device.pushCommand, hcls, hav]

/-- Witness for the amended C6: an ND-range node goes to the available
Compute group, a read-buffer node to the available Copy group. -/
def c6NodeCompute : NodeK := { eventId := 4, kind := CmdKind.ndrangeKernel }

def c6NodeCopy : NodeK := { eventId := 5, kind := CmdKind.readBuffer }

/-- Witness for the amended C6: an ND-range node goes to the available
Compute group, a read-buffer node to the available Copy group. -/
theorem C6_pushCommand_witness :
    isComputeClass c6NodeCompute.kind = true ∧
    isComputeClass c6NodeCopy.kind = false ∧
    c6Dispatch.computeQueues.available = true ∧
    Level0Device.pushCommand c6Dispatch c6NodeCompute
      = { c6Dispatch with
          computeQueues := c6Dispatch.computeQueues.pushWork c6NodeCompute } ∧
    Level0Device.pushCommand c6Dispatch c6NodeCopy
      = { c6Dispatch with
          copyQueues := c6Dispatch.copyQueues.pushWork c6NodeCopy } :=
  ⟨rfl, rfl, rfl,
    ((C6_pushCommand c6Dispatch c6NodeCompute).1 rfl).1 rfl,
    ((C6_pushCommand c6Dispatch c6NodeCopy).2 rfl).1 rfl⟩

/-- **C9.** `pushCommandBatch` on a device that does not advertise
command-queue batching aborts the process (`POCL_ABORT_UNIMPLEMENTED`,
modelled as the `aborted` outcome); when batching is supported the batch
is appended to the Universal Queue Group's batch FIFO and the call returns
normally, leaving everything else untouched. -/
theorem C9_pushCommandBatch (d : DispatchState) (b : List NodeK) :
    (Level0Device.pushCommandBatch d b = PushOutcome.aborted ↔
      d.supportsCmdQBatching = false) ∧
    (∀ d2, Level0Device.pushCommandBatch d b = PushOutcome.ok d2 →
      d2.universalQueues.batchWorkQueue
        = d.universalQueues.batchWorkQueue ++ [b] ∧
      d2.universalQueues.workQueue = d.universalQueues.workQueue ∧
      d2.computeQueues = d.computeQueues ∧
      d2.copyQueues = d.copyQueues ∧
      d2.supportsCmdQBatching = d.supportsCmdQBatching) := by
  constructor
  · cases hs : d.supportsCmdQBatching <;>
      simp [Level0Device.pushCommandBatch, hs]
  · intro d2 hok
    cases hs : d.supportsCmdQBatching
    · rw [Level0Device.pushCommandBatch, hs] at hok
      simp at hok
    · rw [Level0Device.pushCommandBatch, hs] at hok
      simp at hok
      subst hok
      simp [QueueGroupState.pushCommandBatch]

/-- Witness for C9: on a batching-capable dispatch state the batch lands
in the Universal group's batch FIFO. -/
theorem C9_pushCommandBatch_witness :
    (Level0Device.pushCommandBatch c6Dispatch
        [{ eventId := 6, kind := CmdKind.writeBuffer }]
      = PushOutcome.aborted ↔ c6Dispatch.supportsCmdQBatching = false) ∧
    (∀ d2, Level0Device.pushCommandBatch c6Dispatch
        [{ eventId := 6, kind := CmdKind.writeBuffer }]
        = PushOutcome.ok d2 →
      d2.universalQueues.batchWorkQueue
        = c6Dispatch.universalQueues.batchWorkQueue
          ++ [[{ eventId := 6, kind := CmdKind.writeBuffer }]] ∧
      d2.universalQueues.workQueue
        = c6Dispatch.universalQueues.workQueue ∧
      d2.computeQueues = c6Dispatch.computeQueues ∧
      d2.copyQueues = c6Dispatch.copyQueues ∧
      d2.supportsCmdQBatching = c6Dispatch.supportsCmdQBatching) :=
  C9_pushCommandBatch c6Dispatch
    [{ eventId := 6, kind := CmdKind.writeBuffer }]

/-! ## Claim C5: lazy command-buffer recording -/

theorem foldl_hostSync_extends (l : List ((Nat × Nat) × Nat)) :
    ∀ s : WorkerState, ∃ ext,
      (List.foldl
        (fun st e => appendChained (ListEntry.memCopy e.1.1 e.1.2 e.2) st)
        s l).cmdList = s.cmdList ++ ext := by
  induction l with
  | nil =>
    intro s
    exact ⟨[], by simp⟩
  | cons e rest ih =>
    intro s
    obtain ⟨ext, hext⟩ := ih
      (appendChained (ListEntry.memCopy e.1.1 e.1.2 e.2) s)
    refine ⟨(ListEntry.memCopy e.1.1 e.1.2 e.2
        (allocNextFreeEvent s).currentEventH
        (allocNextFreeEvent s).previousEventH.toList) :: ext, ?_⟩
    rw [List.foldl_cons, hext]
    simp [appendChained, (allocNextFreeEvent_frame s).1]

theorem syncMemHostPtrs_extends (s : WorkerState) :
    ∃ ext, (syncMemHostPtrs s).cmdList = s.cmdList ++ ext := by
  obtain ⟨ext, hext⟩ := foldl_hostSync_extends s.useMemHostPtrsToSync s
  exact ⟨ext, hext⟩

theorem chainOf_eventResets (evts : List Nat) :
    chainOf (evts.map ListEntry.eventReset) = [] := by
  induction evts with
  | nil => simp [chainOf]
  | cons e rest ih => simpa [chainOf, ListEntry.chainInfo] using ih

/-- **C5.** On the first replay request of a command buffer whose
per-device slot is still empty, a native list is recorded lazily: the
buffer's stored nodes are appended in original order into a fresh list,
the list is closed, and the resulting list, the owned sync-handle set
(exactly the handles acquired while recording, pairwise distinct) and the
captured residency list are cached in the slot; the worker's own list is
restored.  Every subsequent replay with a cached slot reuses the cached
list as the submitted list, does not rebuild (the worker state is
untouched), and runs submit / running / synchronize / complete on the
governing Result Handle. -/
theorem C5_command_buffer_lazy (buf : CmdBuffer) (s0 : WorkerState)
    (ev : Nat) (hwf : WorkerWF s0) (hcur : s0.currentEventH = none)
    (hrs : s0.deviceEventsToReset = [])
    (hsync : s0.useMemHostPtrsToSync = []) :
    (execCommandBuffer s0 buf none ev).2.2.2 = true ∧
    (∃ rest,
      ((execCommandBuffer s0 buf none ev).2.1.cmdList).map
          ListEntry.payload
        = buf.cmds.flatMap (fun n => opPayloads n.cmd) ++ rest) ∧
    (chainOf (execCommandBuffer s0 buf none ev).2.1.cmdList).map Prod.fst
      = ((execCommandBuffer s0 buf none ev).2.1.events).map some ∧
    ((execCommandBuffer s0 buf none ev).2.1.events).Nodup ∧
    (execCommandBuffer s0 buf none ev).1.cmdList = s0.cmdList ∧
    (execCommandBuffer s0 buf none ev).2.2.1
      = [Action.submitList (execCommandBuffer s0 buf none ev).2.1.cmdList,
         Action.markRunning ev, Action.synchronize,
         Action.markComplete ev] ∧
    (∀ d : CmdBufData,
      (execCommandBuffer s0 buf (some d) ev).2.2.2 = false ∧
      (execCommandBuffer s0 buf (some d) ev).1 = s0 ∧
      (execCommandBuffer s0 buf (some d) ev).2.1.cmdList = d.cmdList ∧
      (execCommandBuffer s0 buf (some d) ev).2.2.1
        = [Action.submitList d.cmdList, Action.markRunning ev,
           Action.synchronize, Action.markComplete ev]) := by
  have hwf1 : WorkerWF { s0 with cmdList := [] } :=
    WorkerWF_fields s0 _ rfl rfl rfl hwf
  have hinv1 : BuildInv { s0 with cmdList := [] } :=
    BuildInv_start _ hwf1 rfl hcur hrs
  have hinv3 : BuildInv (syncMemHostPtrs
      (List.foldl (fun st n => appendEventToList n.cmd st)
        { s0 with cmdList := [] } buf.cmds)) :=
    syncMemHostPtrs_inv _ (foldl_appendEventToList_inv buf.cmds _ hinv1)
  have hpay2 : ((List.foldl (fun st n => appendEventToList n.cmd st)
        { s0 with cmdList := [] } buf.cmds).cmdList).map ListEntry.payload
      = buf.cmds.flatMap (fun n => opPayloads n.cmd) := by
    have := foldl_appendEventToList_payload buf.cmds
      { s0 with cmdList := [] }
    simpa using this
  obtain ⟨ext, hext⟩ := syncMemHostPtrs_extends
    (List.foldl (fun st n => appendEventToList n.cmd st)
      { s0 with cmdList := [] } buf.cmds)
  have hpay3 : ((syncMemHostPtrs
        (List.foldl (fun st n => appendEventToList n.cmd st)
          { s0 with cmdList := [] } buf.cmds)).cmdList).map
        ListEntry.payload
      = buf.cmds.flatMap (fun n => opPayloads n.cmd)
        ++ ext.map ListEntry.payload := by
    rw [hext]
    simp [hpay2]
  obtain ⟨hc1, hc2, hc3, hc4, hc5, hc6, hc7, hc8⟩ :=
    closeCmdList_spec true (syncMemHostPtrs
      (List.foldl (fun st n => appendEventToList n.cmd st)
        { s0 with cmdList := [] } buf.cmds))
  refine ⟨rfl, ?_, ?_, ?_, rfl, rfl, ?_⟩
  · refine ⟨ext.map ListEntry.payload
      ++ ([ListEntry.barrier none (syncMemHostPtrs
          (List.foldl (fun st n => appendEventToList n.cmd st)
            { s0 with cmdList := [] } buf.cmds)).currentEventH.toList]
        ++ (syncMemHostPtrs (List.foldl
            (fun st n => appendEventToList n.cmd st)
            { s0 with cmdList := [] }
            buf.cmds)).deviceEventsToReset.map ListEntry.eventReset
        ++ [ListEntry.closeList]).map ListEntry.payload, ?_⟩
    show ((closeCmdList true _).1.cmdList).map ListEntry.payload = _
    rw [hc1]
    simp only [List.append_assoc, List.map_append, hpay3]
  · show (chainOf (closeCmdList true _).1.cmdList).map Prod.fst
      = ((closeCmdList true _).2).map some
    rw [hc1, hc3]
    simp only [List.append_assoc, chainOf_append, chainOf_eventResets]
    have hb : chainOf [ListEntry.barrier none (syncMemHostPtrs
        (List.foldl (fun st n => appendEventToList n.cmd st)
          { s0 with cmdList := [] } buf.cmds)).currentEventH.toList]
        = [] := by
      simp [chainOf, ListEntry.chainInfo]
    have hcl : chainOf [ListEntry.closeList] = [] := by
      simp [chainOf, ListEntry.chainInfo]
    rw [hb, hcl]
    simp only [List.append_nil, chainOf_eventResets]
    simpa using hinv3.sigs
  · show ((closeCmdList true _).2).Nodup
    rw [hc3]
    simpa using hinv3.wf.resetNodup
  · intro d
    exact ⟨rfl, rfl, rfl, rfl⟩

/-- The recorded command buffer used by the C5 witness: one write and one
copy. -/
def c5Buf : CmdBuffer :=
  ⟨[⟨11, CommandType.writeBuffer 500 ⟨100, 0, false, false, false, 64⟩ 0 8⟩,
    ⟨12, CommandType.copyBuffer ⟨200, 0, false, false, false, 64⟩ ⟨100, 0, false, false, false, 64⟩ 0 0 8⟩]⟩

/-- Witness for C5 on a concrete two-command buffer. -/
theorem C5_command_buffer_lazy_witness :
    WorkerWF cleanWorker ∧
    ((execCommandBuffer cleanWorker c5Buf none 13).2.2.2 = true ∧
    (∃ rest,
      ((execCommandBuffer cleanWorker c5Buf none 13).2.1.cmdList).map
          ListEntry.payload
        = c5Buf.cmds.flatMap (fun n => opPayloads n.cmd) ++ rest) ∧
    (chainOf
        (execCommandBuffer cleanWorker c5Buf none 13).2.1.cmdList).map
        Prod.fst
      = ((execCommandBuffer cleanWorker c5Buf none 13).2.1.events).map
          some ∧
    ((execCommandBuffer cleanWorker c5Buf none 13).2.1.events).Nodup ∧
    (execCommandBuffer cleanWorker c5Buf none 13).1.cmdList
      = cleanWorker.cmdList ∧
    (execCommandBuffer cleanWorker c5Buf none 13).2.2.1
      = [Action.submitList
          (execCommandBuffer cleanWorker c5Buf none 13).2.1.cmdList,
         Action.markRunning 13, Action.synchronize,
         Action.markComplete 13] ∧
    (∀ d : CmdBufData,
      (execCommandBuffer cleanWorker c5Buf (some d) 13).2.2.2 = false ∧
      (execCommandBuffer cleanWorker c5Buf (some d) 13).1 = cleanWorker ∧
      (execCommandBuffer cleanWorker c5Buf (some d) 13).2.1.cmdList
        = d.cmdList ∧
      (execCommandBuffer cleanWorker c5Buf (some d) 13).2.2.1
        = [Action.submitList d.cmdList, Action.markRunning 13,
           Action.synchronize, Action.markComplete 13])) :=
  ⟨cleanWorker_WF,
    C5_command_buffer_lazy c5Buf cleanWorker 13 cleanWorker_WF
      rfl rfl rfl⟩

end PoclLevel0
